import Mathlib

/-!
Verification of the DIGIPIN repository (hierarchical grid address codec,
grid-scan and quadtree polyfill, code validator) against its natural-language
specification.

Coordinates are modelled as rational numbers, Python strings as `List Char`,
fallible Python functions as `Option`/`Except`.

The repository source provides `digipin/polyfill.py` and `digipin/validator.py`;
those modules are embedded directly.  The codec modules (`encoder.py`,
`decoder.py`, `utils.py`) and `polyfill_quadtree.py` are referenced by the
repository's tests but their source files are not available; the corresponding
definitions are modelled from the specification and say so in their doc
comments (`Modelled from the spec:`).

The external geometry collaborator (shapely) is modelled as an abstract
`PreparedPolygon`: its bounding box together with its point-containment and
rectangle-classification oracles, exactly the interface the polyfill code uses.
-/

namespace Digipin

/-- Region constants (`utils.py`). Modelled from the spec: the fixed bounding
box, latitude `2.5 .. 38.5`, longitude `63.5 .. 99.5` (36 degrees of span on
each axis), 10 levels, 4x4 subdivision per level. -/
def LAT_MIN : ℚ := 5/2

def LAT_MAX : ℚ := 77/2

def LON_MIN : ℚ := 127/2

def LON_MAX : ℚ := 199/2

def LAT_SPAN : ℚ := LAT_MAX - LAT_MIN

def LON_SPAN : ℚ := LON_MAX - LON_MIN

def DIGIPIN_LEVELS : ℕ := 10

def GRID_SUBDIVISION : ℕ := 4

/-- `DIGIPIN_ALPHABET` (`utils.py`). Modelled from the spec: the 16-symbol
alphabet of the hierarchical codec, in the row-major order of the spiral
symbol table fixed by the concrete codes in the repository's tests
(for example `encode(28.622788, 77.213033, 10) = "39J49LL8T4"`). -/
def DIGIPIN_ALPHABET : List Char :=
  ['F', 'C', '9', '8', 'J', '3', '2', '7', 'K', '4', '5', '6', 'L', 'M', 'P', 'T']

/-- `get_symbol_from_position` (`utils.py`). Modelled from the spec: the 4x4
spiral symbol table, `row` counted from the top (highest latitude), `col` from
the west; out-of-range positions (never produced by the codec) map to `'?'`. -/
def gridChar (row col : ℕ) : Char :=
  if row = 0 then (if col = 0 then 'F' else if col = 1 then 'C' else if col = 2 then '9' else '8')
  else if row = 1 then (if col = 0 then 'J' else if col = 1 then '3' else if col = 2 then '2' else '7')
  else if row = 2 then (if col = 0 then 'K' else if col = 1 then '4' else if col = 2 then '5' else '6')
  else (if col = 0 then 'L' else if col = 1 then 'M' else if col = 2 then 'P' else 'T')

/-- `get_position_from_symbol` (`utils.py`). Modelled from the spec: inverse of
the symbol table, `(row from top, col)`; fails on a character outside the
alphabet. -/
def posOfSymbol (ch : Char) : Option (ℕ × ℕ) :=
  match ch with
  | 'F' => some (0, 0)
  | 'C' => some (0, 1)
  | '9' => some (0, 2)
  | '8' => some (0, 3)
  | 'J' => some (1, 0)
  | '3' => some (1, 1)
  | '2' => some (1, 2)
  | '7' => some (1, 3)
  | 'K' => some (2, 0)
  | '4' => some (2, 1)
  | '5' => some (2, 2)
  | '6' => some (2, 3)
  | 'L' => some (3, 0)
  | 'M' => some (3, 1)
  | 'P' => some (3, 2)
  | 'T' => some (3, 3)
  | _ => none

/-- A bounding rectangle `(min_lat, max_lat, min_lon, max_lon)` as returned by
`decoder.get_bounds`. -/
structure Bounds where
  latMin : ℚ
  latMax : ℚ
  lonMin : ℚ
  lonMax : ℚ
deriving DecidableEq, Repr

/-- The whole Region as a rectangle. -/
def regionBounds : Bounds :=
  ⟨LAT_MIN, LAT_MAX, LON_MIN, LON_MAX⟩

/-- The subcell of `b` at `row` (from the top) and `col` (from the west) when
`b` is divided into a 4x4 grid of equal rectangles. -/
def mkSub (b : Bounds) (row col : ℕ) : Bounds :=
  ⟨b.latMax - ((row : ℚ) + 1) * ((b.latMax - b.latMin) / 4),
   b.latMax - (row : ℚ) * ((b.latMax - b.latMin) / 4),
   b.lonMin + (col : ℚ) * ((b.lonMax - b.lonMin) / 4),
   b.lonMin + ((col : ℚ) + 1) * ((b.lonMax - b.lonMin) / 4)⟩

/-- One narrowing step of `get_bounds`: refine rectangle `b` by one code
character. Fails on a character outside the alphabet. -/
def boundsStep (b : Bounds) (ch : Char) : Option Bounds :=
  (posOfSymbol ch).map fun rc => mkSub b rc.1 rc.2

/-- Narrow a rectangle by a whole code, one character per level. -/
def boundsFold (b : Bounds) : List Char → Option Bounds
  | [] => some b
  | ch :: rest =>
    match boundsStep b ch with
    | none => none
    | some b' => boundsFold b' rest

/-- Python `str.upper` on one character. -/
def pyUpper (c : Char) : Char :=
  if 97 ≤ c.toNat ∧ c.toNat ≤ 122 then Char.ofNat (c.toNat - 32) else c

/-- `get_bounds` (`decoder.py`). Modelled from the spec: case-normalize the
code, then apply the narrowing one character per level starting from the whole
Region; fails on a character outside the alphabet. -/
def get_bounds (code : List Char) : Option Bounds :=
  boundsFold regionBounds (code.map pyUpper)

/-- `decode` (`decoder.py`). Modelled from the spec: the center point of the
rectangle identified by the code. -/
def decode (code : List Char) : Option (ℚ × ℚ) :=
  (get_bounds code).map fun b => ((b.latMin + b.latMax) / 2, (b.lonMin + b.lonMax) / 2)

/-- Index (from the low end) of the band of `[lo, lo + 4*div]` that contains
`x`, determined by comparing against the three interior band edges; values at
or beyond the extreme edges are clamped into `[0, 3]` so the selection is a
total function on the closed interval, as the spec requires. -/
def axisIdx (lo div x : ℚ) : ℕ :=
  if x < lo + div then 0
  else if x < lo + 2 * div then 1
  else if x < lo + 3 * div then 2
  else 3

/-- The per-level loop of `encode` (`encoder.py`). Modelled from the spec:
keep a shrinking rectangle; at each level pick the 4x4 subcell containing the
point, append its symbol, and recurse on that subcell. -/
def encodeLoop (lat lon : ℚ) : ℕ → Bounds → List Char
  | 0, _ => []
  | n + 1, b =>
    let row := 3 - axisIdx b.latMin ((b.latMax - b.latMin) / 4) lat
    let col := axisIdx b.lonMin ((b.lonMax - b.lonMin) / 4) lon
    gridChar row col :: encodeLoop lat lon n (mkSub b row col)

/-- In-Region test (`utils.validate_coordinate`, closed bounds: points exactly
on the boundary are valid, per the repository's edge-case tests). -/
def inRegion (lat lon : ℚ) : Prop :=
  LAT_MIN ≤ lat ∧ lat ≤ LAT_MAX ∧ LON_MIN ≤ lon ∧ lon ≤ LON_MAX

instance (lat lon : ℚ) : Decidable (inRegion lat lon) := by
  unfold inRegion; infer_instance

/-- `encode` (`encoder.py`). Modelled from the spec: fails with a range error
if the coordinates lie outside the Region or the precision lies outside
`[1, 10]`; otherwise runs the subdivision loop `precision` times. -/
def encode (lat lon : ℚ) (precision : ℕ) : Except String (List Char) :=
  if ¬ inRegion lat lon then
    .error "Invalid coordinates: outside bounds"
  else if ¬ (1 ≤ precision ∧ precision ≤ 10) then
    .error "Invalid precision"
  else
    .ok (encodeLoop lat lon precision regionBounds)

/-- `get_parent` (`decoder.py`). Modelled from the spec: the first `level`
characters; fails if `level` exceeds the code's length or is less than 1. -/
def get_parent (code : List Char) (level : ℕ) : Option (List Char) :=
  if 1 ≤ level ∧ level ≤ code.length then some (code.take level) else none

/-- `is_within` (`decoder.py`). Modelled from the spec: true iff `ancestor` is
a string prefix of `child`, both case-normalized. -/
def is_within (child ancestor : List Char) : Bool :=
  (ancestor.map pyUpper).isPrefixOf (child.map pyUpper)

/-- `get_grid_size` (`utils.py`). Modelled from the spec: the cell size at a
precision is the Region span divided by `4^precision` on each axis, returned
as `(lat_step, lon_step)`. -/
def get_grid_size (precision : ℕ) : ℚ × ℚ :=
  (LAT_SPAN / 4 ^ precision, LON_SPAN / 4 ^ precision)

/-! ## The geometry collaborator

`polyfill.py` uses shapely only through: the polygon's bounding box
(`polygon.bounds`, in shapely's `(min_x=min_lon, min_y=min_lat, max_x=max_lon,
max_y=max_lat)` order), and the prepared polygon's point-containment test
`prepared_poly.contains(Point(lon, lat))`.  `polyfill_quadtree.py`
additionally classifies a cell rectangle against the polygon
(contains-rectangle / intersects-rectangle).  We model a prepared polygon as
exactly this interface. -/

structure PreparedPolygon where
  /-- `polygon.bounds` minimum x (longitude). -/
  minLon : ℚ
  /-- `polygon.bounds` minimum y (latitude). -/
  minLat : ℚ
  /-- `polygon.bounds` maximum x (longitude). -/
  maxLon : ℚ
  /-- `polygon.bounds` maximum y (latitude). -/
  maxLat : ℚ
  /-- `prepared.contains(Point(lon, lat))`. -/
  contains : ℚ → ℚ → Bool
  /-- prepared containment of a whole cell rectangle (used by the quadtree). -/
  containsRect : Bounds → Bool
  /-- prepared intersection test with a cell rectangle (used by the quadtree). -/
  intersectsRect : Bounds → Bool

/-- Number of iterations of the scan loop `cur := lo + step/2; while cur < hi:
cur += step` (`polyfill.py`): the iterates are `lo + step/2 + k*step` for
`k = 0, 1, ...` and the loop runs while they stay below `hi`. -/
def scanCount (lo hi step : ℚ) : ℕ :=
  (⌈(hi - lo) / step - 1/2⌉).toNat

/-- The `k`-th scan point of the loop: the value of the cursor after `k`
increments, starting half a step above `lo`. -/
def scanPt (lo step : ℚ) (k : ℕ) : ℚ :=
  lo + step / 2 + (k : ℚ) * step

/-- The scan points visited by the loop over one axis. -/
def scanPts (lo hi step : ℚ) : List ℚ :=
  (List.range (scanCount lo hi step)).map (scanPt lo step)

/-- The grid-scan `polyfill` (`polyfill.py`, the `algorithm="grid"` variant),
given an already prepared polygon: reject an invalid precision, read the
polygon's bounding box, then scan it row by row at the cell step starting half
a step from the box minimum, keeping the codes of the scanned points the
polygon contains; range errors raised by `encode` are swallowed
(`except ValueError: pass`). -/
def polyfill_grid (poly : PreparedPolygon) (precision : ℕ) :
    Except String (List (List Char)) :=
  if ¬ (1 ≤ precision ∧ precision ≤ 10) then
    .error "Precision must be between 1 and 10"
  else
    .ok ((scanPts poly.minLat poly.maxLat (get_grid_size precision).1).flatMap fun lat =>
      (scanPts poly.minLon poly.maxLon (get_grid_size precision).2).filterMap fun lon =>
        if poly.contains lon lat then (encode lat lon precision).toOption else none)

/-- Observable interactions of the polyfill entry point with the geometry
collaborator, used to state in which order the entry point does its work. -/
inductive GeoEvent where
  | polygonConstructed
  | boundsRead
  | geometryPrepared
  | containsQueried
deriving DecidableEq, Repr

/-- The full entry point of `polyfill` (`polyfill.py`) with its interaction
trace: a list input is first normalized by swapping each `(lat, lon)` pair
into shapely's `(x=lon, y=lat)` order and building a polygon from the shell
(`mk`), then the precision guard runs, then the bounding box is read, the
prepared geometry is built, and the scan queries containment once per scanned
point.  Returns the result together with the ordered trace of geometry
interactions. -/
def polyfill_entry (mk : List (ℚ × ℚ) → PreparedPolygon)
    (input : Sum (List (ℚ × ℚ)) PreparedPolygon) (precision : ℕ) :
    Except String (List (List Char)) × List GeoEvent :=
  let normalized : PreparedPolygon × List GeoEvent :=
    match input with
    | .inl coords => (mk (coords.map fun p => (p.2, p.1)), [.polygonConstructed])
    | .inr poly => (poly, [])
  let poly := normalized.1
  if ¬ (1 ≤ precision ∧ precision ≤ 10) then
    (.error "Precision must be between 1 and 10", normalized.2)
  else
    (polyfill_grid poly precision,
     normalized.2 ++ [.boundsRead, .geometryPrepared] ++
       ((scanPts poly.minLat poly.maxLat (get_grid_size precision).1).flatMap fun _ =>
         (scanPts poly.minLon poly.maxLon (get_grid_size precision).2).map fun _ =>
           .containsQueried))

/-- `get_polygon_boundary`'s accumulating loop (`polyfill.py`): widen the
accumulator `(min_lat, max_lat, min_lon, max_lon)` by the bounds of each
remaining code. -/
def envLoop : (ℚ × ℚ × ℚ × ℚ) → List (List Char) → Option (ℚ × ℚ × ℚ × ℚ)
  | acc, [] => some acc
  | acc, code :: rest =>
    match get_bounds code with
    | none => none
    | some b =>
      envLoop (min acc.1 b.latMin, max acc.2.1 b.latMax,
               min acc.2.2.1 b.lonMin, max acc.2.2.2 b.lonMax) rest

/-- `get_polygon_boundary` (`polyfill.py`): `(0, 0, 0, 0)` for an empty list,
otherwise initialize with the first code's bounds and widen with each
remaining code's bounds; a decode failure propagates (`None`). -/
def get_polygon_boundary (codes : List (List Char)) : Option (ℚ × ℚ × ℚ × ℚ) :=
  match codes with
  | [] => some (0, 0, 0, 0)
  | code :: rest =>
    match get_bounds code with
    | none => none
    | some b => envLoop (b.latMin, b.latMax, b.lonMin, b.lonMax) rest

/-! ## The quadtree polyfill (`polyfill_quadtree.py`)

Modelled from the spec: classify each candidate cell against the polygon as
outside / inside / intersects; discard outside cells, expand inside cells to
all their descendants at the target precision with no further geometry tests,
recurse on intersecting cells, and leaf-test an intersecting cell at the
target precision by the exact center-containment rule.  The recursion starts
from the sixteen level-1 cells (the spec's "level 1 if unspecified" start). -/

/-- Three-way relationship of a cell rectangle and the polygon. -/
inductive CellRel where
  | outside
  | inside
  | intersects
deriving DecidableEq, Repr

/-- `_get_cell_relationship`. Modelled from the spec: disjoint rectangles are
`outside`, fully covered rectangles are `inside`, all others `intersects`. -/
def classifyCell (poly : PreparedPolygon) (b : Bounds) : CellRel :=
  if poly.intersectsRect b = false then .outside
  else if poly.containsRect b = true then .inside
  else .intersects

/-- `_expand_cell_fully`. Modelled from the spec: all descendants of `code`
that are `fuel` further levels down, by pure enumeration of the 16 child
symbols per level, without geometry tests. -/
def expandFully : List Char → ℕ → List (List Char)
  | code, 0 => [code]
  | code, n + 1 => DIGIPIN_ALPHABET.flatMap fun s => expandFully (code ++ [s]) n

/-- The recursive descent of the quadtree polyfill. `fuel` is the number of
levels remaining down to the target precision; `b` is the rectangle of `code`. -/
def quadRec (poly : PreparedPolygon) : List Char → Bounds → ℕ → List (List Char)
  | code, b, fuel =>
    match classifyCell poly b with
    | .outside => []
    | .inside => expandFully code fuel
    | .intersects =>
      match fuel with
      | 0 =>
        if poly.contains ((b.lonMin + b.lonMax) / 2) ((b.latMin + b.latMax) / 2) then
          [code]
        else []
      | n + 1 =>
        DIGIPIN_ALPHABET.flatMap fun s =>
          match boundsStep b s with
          | none => []
          | some b' => quadRec poly (code ++ [s]) b' n

/-- `polyfill_quadtree` (`polyfill_quadtree.py`). Modelled from the spec:
reject an invalid precision before any geometry work, then run the quadtree
descent from the sixteen level-1 cells. -/
def polyfill_quadtree (poly : PreparedPolygon) (precision : ℕ) :
    Except String (List (List Char)) :=
  if ¬ (1 ≤ precision ∧ precision ≤ 10) then
    .error "Precision must be between 1 and 10"
  else
    .ok (DIGIPIN_ALPHABET.flatMap fun s =>
      match boundsStep regionBounds s with
      | none => []
      | some b => quadRec poly [s] b (precision - 1))

/-! ## The validator (`validator.py`)

`validator.py` is in the source and is embedded directly.  Its helpers
`base_decode` and `compute_checksum` live in the missing `utils.py`:
`base_decode` is modelled from the spec as positional base-`len(alphabet)`
decoding; the spec leaves the checksum formula unspecified ("an auxiliary
fixed-length suffix computed from the two axis indices"), so
`compute_checksum` is kept abstract and every validator definition and theorem
is parametrized by it. -/

/-- `DEFAULT_ALPHABET` (`utils.py`): digits then upper-case letters
("0-9, A-Z" per the validator's docstring). -/
def DEFAULT_ALPHABET : List Char :=
  ['0', '1', '2', '3', '4', '5', '6', '7', '8', '9',
   'A', 'B', 'C', 'D', 'E', 'F', 'G', 'H', 'I', 'J', 'K', 'L', 'M',
   'N', 'O', 'P', 'Q', 'R', 'S', 'T', 'U', 'V', 'W', 'X', 'Y', 'Z']

/-- `base_decode` (`utils.py`). Modelled from the spec: interpret the string
as a positional number in base `alphabet.length`, most significant digit
first (characters outside the alphabet contribute `alphabet.length`, but both
validators only decode strings whose characters were already checked). -/
def base_decode (s : List Char) (alphabet : List Char) : ℕ :=
  s.foldl (fun acc ch => acc * alphabet.length + alphabet.indexOf ch) 0

/-- Result structure of `validate_with_details`. -/
structure ValidationResult where
  valid : Bool
  errors : List (List Char)
  warnings : List (List Char)
deriving DecidableEq, Repr

/-- The length-failure message of `validate_with_details`. -/
def lengthErrorMsg (expected got : ℕ) : List Char :=
  "Invalid code length. Expected ".toList ++ Nat.toDigits 10 expected ++
    ", got ".toList ++ Nat.toDigits 10 got

/-- The invalid-character failure message of `validate_with_details` (the
Python `', '.join(set(invalid_chars))` is modelled as joining the distinct
invalid characters in first-occurrence order). -/
def invalidCharsMsg (chars : List Char) : List Char :=
  "Invalid characters found: ".toList ++
    ((chars.dedup.map fun c => [c]).intersperse ", ".toList).flatten

/-- The latitude-index range message of `validate_with_details`. -/
def latRangeMsg (idx : ℕ) : List Char :=
  "Latitude index ".toList ++ Nat.toDigits 10 idx ++ " out of valid range".toList

/-- The longitude-index range message of `validate_with_details`. -/
def lonRangeMsg (idx : ℕ) : List Char :=
  "Longitude index ".toList ++ Nat.toDigits 10 idx ++ " out of valid range".toList

/-- The checksum failure message of `validate_with_details`. -/
def checksumErrorMsg : List Char :=
  "Checksum verification failed. Code may be corrupted.".toList

/-- The lowercase warning of `validate_with_details`. -/
def lowercaseWarning : List Char :=
  "Code contained lowercase characters (auto-converted)".toList

/-- `is_valid` (`validator.py`): length check, character check on the
uppercased code, axis-index range checks, checksum comparison.  `cksum` is
the abstract `compute_checksum`; the remaining parameters mirror the Python
keyword parameters `chars_per_axis`, `base`, `alphabet`, `checksum_length`. -/
def is_valid (cksum : ℕ → ℕ → ℕ → ℕ) (chars_per_axis base checksum_length : ℕ)
    (alphabet : List Char) (code : List Char) : Bool :=
  if code.length ≠ 2 * chars_per_axis + checksum_length then false
  else
    let cu := code.map pyUpper
    if cu.any (fun ch => ! alphabet.contains ch) then false
    else
      let lat_index := base_decode (cu.take chars_per_axis) alphabet
      let lon_index := base_decode ((cu.drop chars_per_axis).take chars_per_axis) alphabet
      let checksum_value := base_decode ((cu.drop (2 * chars_per_axis)).take checksum_length) alphabet
      let n_steps := base ^ chars_per_axis
      if ¬ (lat_index < n_steps) then false
      else if ¬ (lon_index < n_steps) then false
      else checksum_value = cksum lat_index lon_index base

/-- `validate_with_details` (`validator.py`): same checks as `is_valid`, but
reporting a result structure with descriptive error messages (length and
character failures return immediately; index-range and checksum failures
accumulate) and a lowercase warning. -/
def validate_with_details (cksum : ℕ → ℕ → ℕ → ℕ)
    (chars_per_axis base checksum_length : ℕ) (alphabet : List Char)
    (code : List Char) : ValidationResult :=
  if code.length ≠ 2 * chars_per_axis + checksum_length then
    ⟨false, [lengthErrorMsg (2 * chars_per_axis + checksum_length) code.length], []⟩
  else
    let cu := code.map pyUpper
    let warnings := if code ≠ cu then [lowercaseWarning] else []
    let invalid := cu.filter (fun ch => ! alphabet.contains ch)
    if invalid ≠ [] then ⟨false, [invalidCharsMsg invalid], warnings⟩
    else
      let lat_index := base_decode (cu.take chars_per_axis) alphabet
      let lon_index := base_decode ((cu.drop chars_per_axis).take chars_per_axis) alphabet
      let checksum_value := base_decode ((cu.drop (2 * chars_per_axis)).take checksum_length) alphabet
      let n_steps := base ^ chars_per_axis
      let errors :=
        (if ¬ (lat_index < n_steps) then [latRangeMsg lat_index] else []) ++
        (if ¬ (lon_index < n_steps) then [lonRangeMsg lon_index] else []) ++
        (if checksum_value ≠ cksum lat_index lon_index base then [checksumErrorMsg] else [])
      ⟨errors.isEmpty, errors, warnings⟩

/-- A sample checksum function used to exercise the validator theorems on
concrete inputs (the repository's real `compute_checksum` formula is not in
the source; every validator theorem holds for an arbitrary formula). -/
def demoChecksum (lat_index lon_index base : ℕ) : ℕ :=
  (lat_index + lon_index) % base ^ 2

/-! ## Basic geometry of the subdivision -/

/-- Well-formed (nondegenerate) rectangle. -/
def Bounds.wf (b : Bounds) : Prop :=
  b.latMin < b.latMax ∧ b.lonMin < b.lonMax

/-- Componentwise rectangle containment: `b₁ ⊆ b₂`. -/
def Bounds.subset (b₁ b₂ : Bounds) : Prop :=
  b₂.latMin ≤ b₁.latMin ∧ b₁.latMax ≤ b₂.latMax ∧
  b₂.lonMin ≤ b₁.lonMin ∧ b₁.lonMax ≤ b₂.lonMax

/-- Closed membership of a point in a rectangle. -/
def Bounds.inB (b : Bounds) (lat lon : ℚ) : Prop :=
  b.latMin ≤ lat ∧ lat ≤ b.latMax ∧ b.lonMin ≤ lon ∧ lon ≤ b.lonMax

/-- Strict (interior) membership of a point in a rectangle. -/
def Bounds.strictInB (b : Bounds) (lat lon : ℚ) : Prop :=
  b.latMin < lat ∧ lat < b.latMax ∧ b.lonMin < lon ∧ lon < b.lonMax

/-! ## The polyfill scan: loop characterization -/

/-- A shapely rectangle polygon with corners `(lat1, lon1)` and `(lat2, lon2)`,
in prepared form: point containment is strict-interior membership (shapely's
`prepared.contains` excludes the boundary), rectangle containment is closed
containment, rectangle intersection is closed overlap. -/
def rectPoly (lat1 lat2 lon1 lon2 : ℚ) : PreparedPolygon where
  minLon := lon1
  minLat := lat1
  maxLon := lon2
  maxLat := lat2
  contains := fun lon lat =>
    decide (lon1 < lon ∧ lon < lon2 ∧ lat1 < lat ∧ lat < lat2)
  containsRect := fun b =>
    decide (lat1 ≤ b.latMin ∧ b.latMax ≤ lat2 ∧ lon1 ≤ b.lonMin ∧ b.lonMax ≤ lon2)
  intersectsRect := fun b =>
    decide (b.latMin ≤ lat2 ∧ lat1 ≤ b.latMax ∧ b.lonMin ≤ lon2 ∧ lon1 ≤ b.lonMax)

theorem Bounds.subset_refl (b : Bounds) : b.subset b := by
  refine ⟨le_refl _, le_refl _, le_refl _, le_refl _⟩

theorem Bounds.subset_trans {b₁ b₂ b₃ : Bounds} (h₁ : b₁.subset b₂) (h₂ : b₂.subset b₃) :
    b₁.subset b₃ := by
  obtain ⟨a1, a2, a3, a4⟩ := h₁
  obtain ⟨c1, c2, c3, c4⟩ := h₂
  exact ⟨le_trans c1 a1, le_trans a2 c2, le_trans c3 a3, le_trans a4 c4⟩

theorem Bounds.strictInB_of_subset {b₁ b₂ : Bounds} {lat lon : ℚ}
    (hs : b₁.subset b₂) (h : b₁.strictInB lat lon) : b₂.strictInB lat lon := by
  obtain ⟨a1, a2, a3, a4⟩ := hs
  obtain ⟨c1, c2, c3, c4⟩ := h
  exact ⟨lt_of_le_of_lt a1 c1, lt_of_lt_of_le c2 a2, lt_of_le_of_lt a3 c3, lt_of_lt_of_le c4 a4⟩

theorem Bounds.inB_of_subset {b₁ b₂ : Bounds} {lat lon : ℚ}
    (hs : b₁.subset b₂) (h : b₁.inB lat lon) : b₂.inB lat lon := by
  obtain ⟨a1, a2, a3, a4⟩ := hs
  obtain ⟨c1, c2, c3, c4⟩ := h
  exact ⟨le_trans a1 c1, le_trans c2 a2, le_trans a3 c3, le_trans c4 a4⟩

theorem Bounds.inB_of_strictInB {b : Bounds} {lat lon : ℚ}
    (h : b.strictInB lat lon) : b.inB lat lon :=
  ⟨le_of_lt h.1, le_of_lt h.2.1, le_of_lt h.2.2.1, le_of_lt h.2.2.2⟩

theorem regionBounds_wf : regionBounds.wf := by
  constructor <;> norm_num [regionBounds, LAT_MIN, LAT_MAX, LON_MIN, LON_MAX]

theorem mkSub_wf {b : Bounds} (hb : b.wf) (row col : ℕ) : (mkSub b row col).wf := by
  obtain ⟨h1, h2⟩ := hb
  constructor
  · show b.latMax - ((row : ℚ) + 1) * ((b.latMax - b.latMin) / 4) <
      b.latMax - (row : ℚ) * ((b.latMax - b.latMin) / 4)
    have : (0 : ℚ) < (b.latMax - b.latMin) / 4 := by linarith
    nlinarith
  · show b.lonMin + (col : ℚ) * ((b.lonMax - b.lonMin) / 4) <
      b.lonMin + ((col : ℚ) + 1) * ((b.lonMax - b.lonMin) / 4)
    have : (0 : ℚ) < (b.lonMax - b.lonMin) / 4 := by linarith
    nlinarith

theorem mkSub_subset {b : Bounds} (hb : b.latMin ≤ b.latMax ∧ b.lonMin ≤ b.lonMax)
    {row col : ℕ} (hr : row ≤ 3) (hc : col ≤ 3) : (mkSub b row col).subset b := by
  have hlat : (0 : ℚ) ≤ (b.latMax - b.latMin) / 4 := by linarith [hb.1]
  have hlon : (0 : ℚ) ≤ (b.lonMax - b.lonMin) / 4 := by linarith [hb.2]
  have hr4 : ((row : ℚ) + 1) ≤ 4 := by
    have : (row : ℚ) ≤ 3 := by exact_mod_cast hr
    linarith
  have hc4 : ((col : ℚ) + 1) ≤ 4 := by
    have : (col : ℚ) ≤ 3 := by exact_mod_cast hc
    linarith
  have hr0 : (0 : ℚ) ≤ (row : ℚ) := Nat.cast_nonneg row
  have hc0 : (0 : ℚ) ≤ (col : ℚ) := Nat.cast_nonneg col
  refine ⟨?_, ?_, ?_, ?_⟩
  · show b.latMin ≤ b.latMax - ((row : ℚ) + 1) * ((b.latMax - b.latMin) / 4)
    nlinarith
  · show b.latMax - (row : ℚ) * ((b.latMax - b.latMin) / 4) ≤ b.latMax
    nlinarith
  · show b.lonMin ≤ b.lonMin + (col : ℚ) * ((b.lonMax - b.lonMin) / 4)
    nlinarith
  · show b.lonMin + ((col : ℚ) + 1) * ((b.lonMax - b.lonMin) / 4) ≤ b.lonMax
    nlinarith

/-- The subcell widths are exactly a quarter of the parent widths. -/
theorem mkSub_width (b : Bounds) (row col : ℕ) :
    (mkSub b row col).latMax - (mkSub b row col).latMin = (b.latMax - b.latMin) / 4 ∧
    (mkSub b row col).lonMax - (mkSub b row col).lonMin = (b.lonMax - b.lonMin) / 4 := by
  simp only [mkSub]
  constructor <;> ring

theorem posOfSymbol_le3 {ch : Char} {rc : ℕ × ℕ} (h : posOfSymbol ch = some rc) :
    rc.1 ≤ 3 ∧ rc.2 ≤ 3 := by
  unfold posOfSymbol at h
  split at h
  all_goals first | (cases h; decide) | simp_all

theorem gridChar_posOfSymbol {ch : Char} {rc : ℕ × ℕ} (h : posOfSymbol ch = some rc) :
    gridChar rc.1 rc.2 = ch := by
  unfold posOfSymbol at h
  split at h
  all_goals first | (cases h; decide) | simp_all

theorem posOfSymbol_gridChar : ∀ row < 4, ∀ col < 4,
    posOfSymbol (gridChar row col) = some (row, col) := by
  decide

theorem posOfSymbol_isSome_iff_mem {ch : Char} :
    (posOfSymbol ch).isSome = true ↔ ch ∈ DIGIPIN_ALPHABET := by
  constructor
  · intro h
    unfold posOfSymbol at h
    split at h <;> simp_all <;> decide
  · intro h
    fin_cases h <;> decide

theorem pyUpper_fixed_of_mem : ∀ ch ∈ DIGIPIN_ALPHABET, pyUpper ch = ch := by
  decide

theorem gridChar_mem_alphabet : ∀ row < 4, ∀ col < 4,
    gridChar row col ∈ DIGIPIN_ALPHABET := by
  decide

/-! ## Lemmas about `boundsFold` and `encodeLoop` -/

theorem boundsFold_append (b : Bounds) (l₁ l₂ : List Char) :
    boundsFold b (l₁ ++ l₂) =
      match boundsFold b l₁ with
      | none => none
      | some b' => boundsFold b' l₂ := by
  induction l₁ generalizing b with
  | nil => simp [boundsFold]
  | cons ch rest ih =>
    simp only [List.cons_append, boundsFold]
    cases boundsStep b ch with
    | none => rfl
    | some b' => exact ih b'

theorem boundsFold_isSome {code : List Char} (h : ∀ ch ∈ code, ch ∈ DIGIPIN_ALPHABET)
    (b : Bounds) : ∃ b', boundsFold b code = some b' := by
  induction code generalizing b with
  | nil => exact ⟨b, rfl⟩
  | cons ch rest ih =>
    have hch : ch ∈ DIGIPIN_ALPHABET := h ch (by simp)
    have hsome : (posOfSymbol ch).isSome = true := posOfSymbol_isSome_iff_mem.mpr hch
    obtain ⟨rc, hrc⟩ := Option.isSome_iff_exists.mp hsome
    obtain ⟨b', hb'⟩ := ih (fun c hc => h c (by simp [hc])) (mkSub b rc.1 rc.2)
    exact ⟨b', by simp [boundsFold, boundsStep, hrc, hb']⟩

theorem boundsFold_wf {b b' : Bounds} {code : List Char}
    (hb : b.wf) (h : boundsFold b code = some b') : b'.wf := by
  induction code generalizing b with
  | nil =>
    simp only [boundsFold, Option.some_inj] at h
    exact h ▸ hb
  | cons ch rest ih =>
    simp only [boundsFold] at h
    cases hstep : boundsStep b ch with
    | none => rw [hstep] at h; exact absurd h (by simp)
    | some b₁ =>
      rw [hstep] at h
      obtain ⟨rc, hrc, hmk⟩ := Option.map_eq_some'.mp hstep
      exact ih (hmk ▸ mkSub_wf hb rc.1 rc.2) h

theorem boundsFold_subset {b b' : Bounds} {code : List Char}
    (hb : b.wf) (h : boundsFold b code = some b') : b'.subset b := by
  induction code generalizing b with
  | nil =>
    simp only [boundsFold, Option.some_inj] at h
    exact h ▸ Bounds.subset_refl b
  | cons ch rest ih =>
    simp only [boundsFold] at h
    cases hstep : boundsStep b ch with
    | none => rw [hstep] at h; exact absurd h (by simp)
    | some b₁ =>
      rw [hstep] at h
      obtain ⟨rc, hrc, hmk⟩ := Option.map_eq_some'.mp hstep
      have hle := posOfSymbol_le3 hrc
      have hsub : b₁.subset b := by
        rw [← hmk]
        exact mkSub_subset ⟨le_of_lt hb.1, le_of_lt hb.2⟩ hle.1 hle.2
      have hwf : b₁.wf := hmk ▸ mkSub_wf hb rc.1 rc.2
      exact Bounds.subset_trans (ih hwf h) hsub

theorem boundsFold_width {b b' : Bounds} {code : List Char}
    (h : boundsFold b code = some b') :
    b'.latMax - b'.latMin = (b.latMax - b.latMin) / 4 ^ code.length ∧
    b'.lonMax - b'.lonMin = (b.lonMax - b.lonMin) / 4 ^ code.length := by
  induction code generalizing b with
  | nil =>
    simp only [boundsFold, Option.some_inj] at h
    subst h
    simp
  | cons ch rest ih =>
    simp only [boundsFold] at h
    cases hstep : boundsStep b ch with
    | none => rw [hstep] at h; exact absurd h (by simp)
    | some b₁ =>
      rw [hstep] at h
      obtain ⟨rc, hrc, hmk⟩ := Option.map_eq_some'.mp hstep
      obtain ⟨ihlat, ihlon⟩ := ih h
      have hw := mkSub_width b rc.1 rc.2
      rw [hmk] at hw
      constructor
      · rw [ihlat, hw.1, List.length_cons, pow_succ]
        ring
      · rw [ihlon, hw.2, List.length_cons, pow_succ]
        ring

theorem encodeLoop_length (lat lon : ℚ) (n : ℕ) (b : Bounds) :
    (encodeLoop lat lon n b).length = n := by
  induction n generalizing b with
  | zero => rfl
  | succ n ih => simp [encodeLoop, ih]

theorem axisIdx_le3 (lo div x : ℚ) : axisIdx lo div x ≤ 3 := by
  unfold axisIdx
  split_ifs <;> omega

theorem encodeLoop_mem_alphabet (lat lon : ℚ) (n : ℕ) (b : Bounds) :
    ∀ ch ∈ encodeLoop lat lon n b, ch ∈ DIGIPIN_ALPHABET := by
  induction n generalizing b with
  | zero => intro ch hch; simp [encodeLoop] at hch
  | succ n ih =>
    intro ch hch
    simp only [encodeLoop, List.mem_cons] at hch
    rcases hch with h | h
    · subst h
      exact gridChar_mem_alphabet _ (by omega) _
        (Nat.lt_succ_of_le (axisIdx_le3 _ _ _))
    · exact ih _ ch h

/-- On one axis: the selected band contains the point (with clamping at the
extreme edges), whenever the point lies in the closed interval. -/
theorem axisIdx_sound {lo div x : ℚ} (hdiv : 0 < div)
    (hlo : lo ≤ x) (hhi : x ≤ lo + 4 * div) :
    lo + (axisIdx lo div x : ℚ) * div ≤ x ∧
      x ≤ lo + ((axisIdx lo div x : ℚ) + 1) * div := by
  unfold axisIdx
  split_ifs with h1 h2 h3
  · push_cast; constructor <;> linarith
  · push_cast; constructor <;> linarith
  · push_cast; constructor <;> linarith
  · push_cast; constructor <;> linarith

/-- On one axis: a point strictly inside band `i` selects exactly band `i`. -/
theorem axisIdx_select {lo div x : ℚ} {i : ℕ} (hdiv : 0 < div) (hi : i ≤ 3)
    (hlow : lo + (i : ℚ) * div < x) (hhigh : x < lo + ((i : ℚ) + 1) * div) :
    axisIdx lo div x = i := by
  unfold axisIdx
  interval_cases i <;> push_cast at hlow hhigh <;> split_ifs with h1 h2 h3 <;>
    first | rfl | (exfalso; linarith)

/-- The row/column pair selected by one `encode` level, and the fact that
`mkSub` of that pair is the `boundsStep` of the emitted symbol. -/
theorem boundsStep_gridChar {row col : ℕ} (hr : row ≤ 3) (hc : col ≤ 3) (b : Bounds) :
    boundsStep b (gridChar row col) = some (mkSub b row col) := by
  have h := posOfSymbol_gridChar row (by omega) col (by omega)
  simp [boundsStep, h]

/-- Soundness of one `encode` level: an in-rectangle point stays inside the
selected subcell. -/
theorem encode_step_sound {b : Bounds} {lat lon : ℚ} (hb : b.wf)
    (h : b.inB lat lon) :
    (mkSub b (3 - axisIdx b.latMin ((b.latMax - b.latMin) / 4) lat)
      (axisIdx b.lonMin ((b.lonMax - b.lonMin) / 4) lon)).inB lat lon := by
  obtain ⟨h1, h2, h3, h4⟩ := h
  have hlatdiv : (0 : ℚ) < (b.latMax - b.latMin) / 4 := by
    have := hb.1; linarith
  have hlondiv : (0 : ℚ) < (b.lonMax - b.lonMin) / 4 := by
    have := hb.2; linarith
  have hlat4 : lat ≤ b.latMin + 4 * ((b.latMax - b.latMin) / 4) := by linarith
  have hlon4 : lon ≤ b.lonMin + 4 * ((b.lonMax - b.lonMin) / 4) := by linarith
  obtain ⟨hla, hlb⟩ := axisIdx_sound hlatdiv h1 hlat4
  obtain ⟨hlc, hld⟩ := axisIdx_sound hlondiv h3 hlon4
  set i := axisIdx b.latMin ((b.latMax - b.latMin) / 4) lat with hi
  set j := axisIdx b.lonMin ((b.lonMax - b.lonMin) / 4) lon with hj
  have hi3 : i ≤ 3 := axisIdx_le3 _ _ _
  have hcast : ((3 - i : ℕ) : ℚ) = 3 - (i : ℚ) := by
    have : (i : ℚ) ≤ 3 := by exact_mod_cast hi3
    push_cast [Nat.cast_sub hi3]
    ring
  refine ⟨?_, ?_, ?_, ?_⟩
  · show b.latMax - (((3 - i : ℕ) : ℚ) + 1) * ((b.latMax - b.latMin) / 4) ≤ lat
    rw [hcast]
    have hexp : b.latMax - (3 - (i : ℚ) + 1) * ((b.latMax - b.latMin) / 4) =
        b.latMin + (i : ℚ) * ((b.latMax - b.latMin) / 4) := by ring
    rw [hexp]
    exact hla
  · show lat ≤ b.latMax - ((3 - i : ℕ) : ℚ) * ((b.latMax - b.latMin) / 4)
    rw [hcast]
    have hexp : b.latMax - (3 - (i : ℚ)) * ((b.latMax - b.latMin) / 4) =
        b.latMin + ((i : ℚ) + 1) * ((b.latMax - b.latMin) / 4) := by ring
    rw [hexp]
    exact hlb
  · exact hlc
  · exact hld

/-- Invariant of the whole `encode` loop: the narrowed rectangle reached by
folding the emitted code always still contains the encoded point. -/
theorem encodeLoop_boundsFold {lat lon : ℚ} {b : Bounds} (hb : b.wf)
    (h : b.inB lat lon) (n : ℕ) :
    ∃ b', boundsFold b (encodeLoop lat lon n b) = some b' ∧ b'.inB lat lon := by
  induction n generalizing b with
  | zero => exact ⟨b, rfl, h⟩
  | succ n ih =>
    simp only [encodeLoop]
    set row := 3 - axisIdx b.latMin ((b.latMax - b.latMin) / 4) lat with hrow
    set col := axisIdx b.lonMin ((b.lonMax - b.lonMin) / 4) lon with hcol
    have hr : row ≤ 3 := by omega
    have hc : col ≤ 3 := axisIdx_le3 _ _ _
    have hwf' : (mkSub b row col).wf := mkSub_wf hb row col
    have hmem : (mkSub b row col).inB lat lon := encode_step_sound hb h
    obtain ⟨b', hb', hmem'⟩ := ih hwf' hmem
    refine ⟨b', ?_, hmem'⟩
    simp only [boundsFold, boundsStep_gridChar hr hc]
    exact hb'

/-- Determinism of the `encode` loop on interior points: if folding a valid
code from rectangle `b` reaches `b'` and the point lies strictly inside `b'`,
then encoding from `b` for the code's length reproduces exactly that code. -/
theorem encodeLoop_of_strict {lat lon : ℚ} {code : List Char} {b b' : Bounds}
    (hv : ∀ ch ∈ code, ch ∈ DIGIPIN_ALPHABET) (hb : b.wf)
    (hfold : boundsFold b code = some b') (hstrict : b'.strictInB lat lon) :
    encodeLoop lat lon code.length b = code := by
  induction code generalizing b with
  | nil => rfl
  | cons d rest ih =>
    have hd : d ∈ DIGIPIN_ALPHABET := hv d (by simp)
    have hsome : (posOfSymbol d).isSome = true := posOfSymbol_isSome_iff_mem.mpr hd
    obtain ⟨rc, hrc⟩ := Option.isSome_iff_exists.mp hsome
    obtain ⟨hr3, hc3⟩ := posOfSymbol_le3 hrc
    simp only [boundsFold, boundsStep, hrc, Option.map_some'] at hfold
    have hwf1 : (mkSub b rc.1 rc.2).wf := mkSub_wf hb rc.1 rc.2
    have hsub : b'.subset (mkSub b rc.1 rc.2) := boundsFold_subset hwf1 hfold
    have hstrict1 : (mkSub b rc.1 rc.2).strictInB lat lon :=
      Bounds.strictInB_of_subset hsub hstrict
    have hlatdiv : (0 : ℚ) < (b.latMax - b.latMin) / 4 := by
      have := hb.1; linarith
    have hlondiv : (0 : ℚ) < (b.lonMax - b.lonMin) / 4 := by
      have := hb.2; linarith
    obtain ⟨s1, s2, s3, s4⟩ := hstrict1
    have hlatsel : axisIdx b.latMin ((b.latMax - b.latMin) / 4) lat = 3 - rc.1 := by
      apply axisIdx_select hlatdiv (by omega)
      · have hcast : ((3 - rc.1 : ℕ) : ℚ) = 3 - (rc.1 : ℚ) := by
          push_cast [Nat.cast_sub hr3]; ring
        rw [hcast]
        have hexp : b.latMin + (3 - (rc.1 : ℚ)) * ((b.latMax - b.latMin) / 4) =
            b.latMax - ((rc.1 : ℚ) + 1) * ((b.latMax - b.latMin) / 4) := by ring
        rw [hexp]
        exact s1
      · have hcast : ((3 - rc.1 : ℕ) : ℚ) = 3 - (rc.1 : ℚ) := by
          push_cast [Nat.cast_sub hr3]; ring
        rw [hcast]
        have hexp : b.latMin + (3 - (rc.1 : ℚ) + 1) * ((b.latMax - b.latMin) / 4) =
            b.latMax - (rc.1 : ℚ) * ((b.latMax - b.latMin) / 4) := by ring
        rw [hexp]
        exact s2
    have hlonsel : axisIdx b.lonMin ((b.lonMax - b.lonMin) / 4) lon = rc.2 := by
      apply axisIdx_select hlondiv hc3 s3 s4
    simp only [List.length_cons, encodeLoop, hlatsel, hlonsel]
    have hrowfix : 3 - (3 - rc.1) = rc.1 := by omega
    rw [hrowfix, gridChar_posOfSymbol hrc,
      ih (fun c hc => hv c (by simp [hc])) hwf1 hfold]

/-! ## C3: encode range errors and success format -/

/-- `encode` succeeds exactly on in-Region points with precision in `[1, 10]`,
and then returns `precision` alphabet characters. -/
theorem encode_ok_spec (lat lon : ℚ) (p : ℕ) :
    ((∃ c, encode lat lon p = .ok c) ↔ (inRegion lat lon ∧ 1 ≤ p ∧ p ≤ 10)) ∧
    (∀ c, encode lat lon p = .ok c →
      c.length = p ∧ ∀ ch ∈ c, ch ∈ DIGIPIN_ALPHABET) := by
  constructor
  · constructor
    · intro ⟨c, hc⟩
      unfold encode at hc
      split_ifs at hc with h1 h2 <;> simp_all
    · intro ⟨h1, h2⟩
      refine ⟨encodeLoop lat lon p regionBounds, ?_⟩
      unfold encode
      rw [if_neg (not_not.mpr h1), if_neg (not_not.mpr h2)]
  · intro c hc
    unfold encode at hc
    split_ifs at hc
    obtain rfl : encodeLoop lat lon p regionBounds = c := by
      exact Except.ok.inj hc
    exact ⟨encodeLoop_length lat lon p regionBounds,
      encodeLoop_mem_alphabet lat lon p regionBounds⟩

/-- C3: `encode(lat, lon, precision)` fails with a range error if and only if
the coordinates lie outside the Region or the precision is outside `[1, 10]`;
every in-range input (boundary points included) succeeds with a code of
exactly `precision` characters drawn from the 16-symbol alphabet. -/
theorem C3_encode_range_and_format (lat lon : ℚ) (p : ℕ) :
    ((∃ c, encode lat lon p = .ok c) ↔ (inRegion lat lon ∧ 1 ≤ p ∧ p ≤ 10)) ∧
    (∀ c, encode lat lon p = .ok c →
      c.length = p ∧ ∀ ch ∈ c, ch ∈ DIGIPIN_ALPHABET) :=
  encode_ok_spec lat lon p

/-- Witness for C3: the exact northeast Region corner encodes successfully at
precision 10, with the promised length and alphabet; a point outside the
Region is rejected. -/
theorem C3_witness :
    (∃ c, encode LAT_MAX LON_MAX 10 = .ok c) ∧
    (∀ c, encode LAT_MAX LON_MAX 10 = .ok c →
      c.length = 10 ∧ ∀ ch ∈ c, ch ∈ DIGIPIN_ALPHABET) ∧
    ¬ (∃ c, encode 0 0 5 = .ok c) := by
  have h1 := C3_encode_range_and_format LAT_MAX LON_MAX 10
  have h2 := C3_encode_range_and_format 0 0 5
  refine ⟨h1.1.mpr ⟨?_, by norm_num⟩, h1.2, ?_⟩
  · refine ⟨?_, ?_, ?_, ?_⟩ <;> norm_num [LAT_MIN, LAT_MAX, LON_MIN, LON_MAX]
  · intro hex
    have h := h2.1.mp hex
    have : inRegion 0 0 := h.1
    norm_num [inRegion, LAT_MIN, LAT_MAX, LON_MIN, LON_MAX] at this

/-! ## C6: hierarchical containment, parents and `is_within` -/

/-- A valid code is fixed by case normalization. -/
theorem map_pyUpper_fixed {c : List Char} (hv : ∀ ch ∈ c, ch ∈ DIGIPIN_ALPHABET) :
    c.map pyUpper = c := by
  induction c with
  | nil => rfl
  | cons ch rest ih =>
    simp only [List.map_cons]
    rw [pyUpper_fixed_of_mem ch (hv ch (by simp)), ih (fun x hx => hv x (by simp [hx]))]

/-- C6: for every valid code `c` of length `L > 1`: `parent(c, k)` is the
first `k` characters for `1 ≤ k ≤ L` and fails otherwise; `bounds(c)` is
contained in `bounds(parent(c, L-1))`; `is_within(c, parent(c, k))` holds for
every `1 ≤ k < L`; `is_within(a, c)` is false whenever `a` is a proper prefix
of `c`; and `is_within` is exactly the case-normalized string-prefix test. -/
theorem C6_hierarchy (c : List Char) (hL : 1 < c.length)
    (hv : ∀ ch ∈ c, ch ∈ DIGIPIN_ALPHABET) :
    (∀ k, 1 ≤ k → k ≤ c.length → get_parent c k = some (c.take k)) ∧
    (∀ k, k < 1 ∨ c.length < k → get_parent c k = none) ∧
    (∃ b b', get_bounds c = some b ∧ get_bounds (c.take (c.length - 1)) = some b' ∧
      b.subset b') ∧
    (∀ k, 1 ≤ k → k < c.length → is_within c (c.take k) = true) ∧
    (∀ a, a <+: c → a.length < c.length → is_within a c = false) ∧
    (∀ x y : List Char, is_within x y = true ↔ (y.map pyUpper) <+: (x.map pyUpper)) := by
  refine ⟨?_, ?_, ?_, ?_, ?_, ?_⟩
  · intro k h1 h2
    simp [get_parent, h1, h2]
  · intro k hk
    rcases hk with hk | hk <;> simp [get_parent] <;> omega
  · -- bounds of c sit inside bounds of its immediate parent
    have hvtake : ∀ ch ∈ c.take (c.length - 1), ch ∈ DIGIPIN_ALPHABET :=
      fun ch hch => hv ch (List.take_subset _ _ hch)
    obtain ⟨b', hb'⟩ := boundsFold_isSome hvtake regionBounds
    have hwf' : b'.wf := boundsFold_wf regionBounds_wf hb'
    have hdecomp : c = c.take (c.length - 1) ++ c.drop (c.length - 1) := by
      rw [List.take_append_drop]
    have hlen : (c.drop (c.length - 1)).length = 1 := by
      rw [List.length_drop]
      omega
    obtain ⟨d, hd⟩ := List.length_eq_one.mp hlen
    have hdmem : d ∈ DIGIPIN_ALPHABET := by
      apply hv
      have : d ∈ c.drop (c.length - 1) := by rw [hd]; simp
      exact List.drop_subset _ _ this
    obtain ⟨rc, hrc⟩ := Option.isSome_iff_exists.mp (posOfSymbol_isSome_iff_mem.mpr hdmem)
    have hfold : boundsFold regionBounds c = some (mkSub b' rc.1 rc.2) := by
      conv_lhs => rw [hdecomp]
      rw [boundsFold_append, hb', hd]
      simp [boundsFold, boundsStep, hrc]
    refine ⟨mkSub b' rc.1 rc.2, b', ?_, ?_, ?_⟩
    · rw [get_bounds, map_pyUpper_fixed hv, hfold]
    · rw [get_bounds, map_pyUpper_fixed hvtake, hb']
    · have hle := posOfSymbol_le3 hrc
      exact mkSub_subset ⟨le_of_lt hwf'.1, le_of_lt hwf'.2⟩ hle.1 hle.2
  · intro k _ _
    rw [is_within, List.isPrefixOf_iff_prefix]
    exact (List.take_prefix k c).map pyUpper
  · intro a _ hlen
    rw [is_within]
    by_contra h
    rw [Bool.not_eq_false, List.isPrefixOf_iff_prefix] at h
    have := h.length_le
    simp only [List.length_map] at this
    omega
  · intro x y
    rw [is_within, List.isPrefixOf_iff_prefix]

/-- Witness for C6 at the concrete code `"39"`. -/
theorem C6_witness :
    get_parent ['3', '9'] 1 = some ['3'] ∧
    get_parent ['3', '9'] 3 = none ∧
    (∃ b b', get_bounds ['3', '9'] = some b ∧ get_bounds ['3'] = some b' ∧
      b.subset b') ∧
    is_within ['3', '9'] ['3'] = true ∧
    is_within ['3'] ['3', '9'] = false := by
  obtain ⟨h1, h2, h3, h4, h5, _⟩ := C6_hierarchy ['3', '9'] (by norm_num) (by decide)
  exact ⟨h1 1 (by norm_num) (by norm_num), h2 3 (by norm_num),
    by simpa using h3, h4 1 (by norm_num) (by norm_num),
    h5 ['3'] ⟨['9'], rfl⟩ (by norm_num)⟩

/-! ## C7: round-trip containment; the pointwise distance is NOT monotone -/

/-- C7 (amended): for every successful `encode(lat, lon, p) = code`, the
decoded point is the center of `bounds(code)`, lies inside `bounds(code)`,
the original point also lies in `bounds(code)`, and the per-axis distance
between the original point and the decoded center is at most half the cell
size at precision `p` — a bound that is non-increasing (indeed shrinking by a
factor of 4) as `p` increases.  The claimed pointwise monotonicity of the
distance itself is refuted by `C7_counterexample`. -/
theorem C7_roundtrip_error_bound (lat lon : ℚ) (p : ℕ) (code : List Char)
    (h : encode lat lon p = .ok code) :
    ∃ b, get_bounds code = some b ∧
      decode code = some ((b.latMin + b.latMax) / 2, (b.lonMin + b.lonMax) / 2) ∧
      b.inB ((b.latMin + b.latMax) / 2) ((b.lonMin + b.lonMax) / 2) ∧
      b.inB lat lon ∧
      |lat - (b.latMin + b.latMax) / 2| ≤ LAT_SPAN / 4 ^ p / 2 ∧
      |lon - (b.lonMin + b.lonMax) / 2| ≤ LON_SPAN / 4 ^ p / 2 ∧
      (∀ q, p ≤ q → LAT_SPAN / 4 ^ q / 2 ≤ LAT_SPAN / 4 ^ p / 2 ∧
        LON_SPAN / 4 ^ q / 2 ≤ LON_SPAN / 4 ^ p / 2) := by
  have hin : inRegion lat lon ∧ 1 ≤ p ∧ p ≤ 10 :=
    (encode_ok_spec lat lon p).1.mp ⟨code, h⟩
  have hc : code = encodeLoop lat lon p regionBounds := by
    unfold encode at h
    rw [if_neg (not_not.mpr hin.1), if_neg (not_not.mpr hin.2)] at h
    exact (Except.ok.inj h).symm
  obtain ⟨hr1, hr2, hr3, hr4⟩ := hin.1
  have hmem : regionBounds.inB lat lon := ⟨hr1, hr2, hr3, hr4⟩
  obtain ⟨b, hfold, hbmem⟩ := encodeLoop_boundsFold regionBounds_wf hmem p
  have hvalid : ∀ ch ∈ code, ch ∈ DIGIPIN_ALPHABET := by
    rw [hc]; exact encodeLoop_mem_alphabet lat lon p regionBounds
  have hlen : code.length = p := by rw [hc]; exact encodeLoop_length lat lon p regionBounds
  have hgb : get_bounds code = some b := by
    rw [get_bounds, map_pyUpper_fixed hvalid, hc]
    exact hfold
  have hwf : b.wf := boundsFold_wf regionBounds_wf (hc ▸ hfold)
  have hwidth := boundsFold_width (hc ▸ hfold :
    boundsFold regionBounds code = some b)
  rw [hlen] at hwidth
  have hlatw : b.latMax - b.latMin = LAT_SPAN / 4 ^ p := by
    rw [hwidth.1]; rfl
  have hlonw : b.lonMax - b.lonMin = LON_SPAN / 4 ^ p := by
    rw [hwidth.2]; rfl
  have hbpin : b.inB lat lon := hbmem
  refine ⟨b, hgb, ?_, ?_, hbpin, ?_, ?_, ?_⟩
  · rw [decode, hgb, Option.map_some']
  · obtain ⟨w1, w2⟩ := hwf
    exact ⟨by linarith, by linarith, by linarith, by linarith⟩
  · obtain ⟨m1, m2, _, _⟩ := hbpin
    rw [abs_le, ← hlatw]
    constructor <;> linarith
  · obtain ⟨_, _, m3, m4⟩ := hbpin
    rw [abs_le, ← hlonw]
    constructor <;> linarith
  · intro q hq
    have hpow : (4 : ℚ) ^ p ≤ 4 ^ q := by
      apply pow_le_pow_right₀ (by norm_num) hq
    have hlatpos : (0 : ℚ) < LAT_SPAN := by norm_num [LAT_SPAN, LAT_MIN, LAT_MAX]
    have hlonpos : (0 : ℚ) < LON_SPAN := by norm_num [LON_SPAN, LON_MIN, LON_MAX]
    have hppos : (0 : ℚ) < 4 ^ p := by positivity
    constructor
    · have := div_le_div_of_nonneg_left (le_of_lt hlatpos) hppos hpow
      linarith
    · have := div_le_div_of_nonneg_left (le_of_lt hlonpos) hppos hpow
      linarith

/-- Witness for C7 at `(25.1, 86.1)`, precision 1. -/
theorem C7_witness :
    encode (251/10) (861/10) 1 = .ok ['2'] ∧
    ∃ b, get_bounds ['2'] = some b ∧
      decode ['2'] = some ((b.latMin + b.latMax) / 2, (b.lonMin + b.lonMax) / 2) ∧
      b.inB ((b.latMin + b.latMax) / 2) ((b.lonMin + b.lonMax) / 2) ∧
      b.inB (251/10) (861/10) ∧
      |(251/10 : ℚ) - (b.latMin + b.latMax) / 2| ≤ LAT_SPAN / 4 ^ 1 / 2 ∧
      |(861/10 : ℚ) - (b.lonMin + b.lonMax) / 2| ≤ LON_SPAN / 4 ^ 1 / 2 := by
  have henc : encode (251/10) (861/10) 1 = .ok ['2'] := by
    rw [encode, if_neg (by norm_num [inRegion, LAT_MIN, LAT_MAX, LON_MIN, LON_MAX]),
      if_neg (by norm_num)]
    norm_num [encodeLoop, axisIdx, mkSub, gridChar, regionBounds,
      LAT_MIN, LAT_MAX, LON_MIN, LON_MAX]
  obtain ⟨b, h1, h2, h3, h4, h5, h6, _⟩ := C7_roundtrip_error_bound (251/10) (861/10) 1 ['2'] henc
  exact ⟨henc, b, h1, h2, h3, h4, h5, h6⟩

/-- C7 counterexample: the distance between the original point and the decoded
center is NOT monotonically non-increasing in the precision.  At
`(lat, lon) = (25.1, 86.1)` the precision-1 code decodes to `(25, 86)`
(squared distance `0.02`) while the precision-2 code decodes to
`(26.125, 87.125)` (squared distance `2.10125`): raising the precision from 1
to 2 strictly increases the distance. -/
theorem C7_counterexample :
    encode (251/10) (861/10) 1 = .ok ['2'] ∧
    encode (251/10) (861/10) 2 = .ok ['2', '2'] ∧
    decode ['2'] = some (25, 86) ∧
    decode ['2', '2'] = some (209/8, 697/8) ∧
    ((251/10 : ℚ) - 25) ^ 2 + ((861/10 : ℚ) - 86) ^ 2 <
      ((251/10 : ℚ) - 209/8) ^ 2 + ((861/10 : ℚ) - 697/8) ^ 2 := by
  refine ⟨?_, ?_, ?_, ?_, by norm_num⟩
  · rw [encode, if_neg (by norm_num [inRegion, LAT_MIN, LAT_MAX, LON_MIN, LON_MAX]),
      if_neg (by norm_num)]
    norm_num [encodeLoop, axisIdx, mkSub, gridChar, regionBounds,
      LAT_MIN, LAT_MAX, LON_MIN, LON_MAX]
  · rw [encode, if_neg (by norm_num [inRegion, LAT_MIN, LAT_MAX, LON_MIN, LON_MAX]),
      if_neg (by norm_num)]
    norm_num [encodeLoop, axisIdx, mkSub, gridChar, regionBounds,
      LAT_MIN, LAT_MAX, LON_MIN, LON_MAX]
  · rw [decode, get_bounds, show ['2'].map pyUpper = ['2'] from by decide]
    norm_num [boundsFold, boundsStep, posOfSymbol, mkSub, regionBounds,
      LAT_MIN, LAT_MAX, LON_MIN, LON_MAX]
  · rw [decode, get_bounds, show ['2', '2'].map pyUpper = ['2', '2'] from by decide]
    norm_num [boundsFold, boundsStep, posOfSymbol, mkSub, regionBounds,
      LAT_MIN, LAT_MAX, LON_MIN, LON_MAX]

/-! ## C8 and C9: the validator -/

theorem char_toNat_ofNat {n : ℕ} (h : n.isValidChar) : (Char.ofNat n).toNat = n := by
  simp only [Char.ofNat, h, dif_pos]
  simp [Char.ofNatAux, Char.toNat, UInt32.toNat, BitVec.toNat_ofNatLt]

theorem pyUpper_idem (c : Char) : pyUpper (pyUpper c) = pyUpper c := by
  by_cases h1 : 97 ≤ c.toNat ∧ c.toNat ≤ 122
  · have hv : Nat.isValidChar (c.toNat - 32) := Or.inl (by omega)
    have key := char_toNat_ofNat hv
    have hc : pyUpper c = Char.ofNat (c.toNat - 32) := by rw [pyUpper, if_pos h1]
    rw [hc, pyUpper, key, if_neg (by omega)]
  · have hc : pyUpper c = c := by rw [pyUpper, if_neg h1]
    rw [hc, hc]

theorem map_pyUpper_idem (l : List Char) :
    (l.map pyUpper).map pyUpper = l.map pyUpper := by
  rw [List.map_map]
  exact List.map_congr_left fun c _ => pyUpper_idem c

theorem base_decode_foldl_lt (alphabet : List Char) :
    ∀ (s : List Char) (acc : ℕ), (∀ ch ∈ s, ch ∈ alphabet) →
      s.foldl (fun acc ch => acc * alphabet.length + alphabet.indexOf ch) acc <
        (acc + 1) * alphabet.length ^ s.length := by
  intro s
  induction s with
  | nil => intro acc _; simp
  | cons ch rest ih =>
    intro acc hv
    have hch : ch ∈ alphabet := hv ch (by simp)
    have hidx : alphabet.indexOf ch < alphabet.length := List.indexOf_lt_length.mpr hch
    have h1 := ih (acc * alphabet.length + alphabet.indexOf ch)
      (fun c hc => hv c (by simp [hc]))
    calc (ch :: rest).foldl (fun acc ch => acc * alphabet.length + alphabet.indexOf ch) acc
        = rest.foldl (fun acc ch => acc * alphabet.length + alphabet.indexOf ch)
            (acc * alphabet.length + alphabet.indexOf ch) := by simp [List.foldl_cons]
      _ < (acc * alphabet.length + alphabet.indexOf ch + 1) * alphabet.length ^ rest.length := h1
      _ ≤ ((acc + 1) * alphabet.length) * alphabet.length ^ rest.length := by
          apply Nat.mul_le_mul_right
          have : alphabet.indexOf ch + 1 ≤ alphabet.length := hidx
          nlinarith
      _ = (acc + 1) * alphabet.length ^ (rest.length + 1) := by ring
      _ = (acc + 1) * alphabet.length ^ (ch :: rest).length := by simp

theorem base_decode_lt {s alphabet : List Char} (hv : ∀ ch ∈ s, ch ∈ alphabet) :
    base_decode s alphabet < alphabet.length ^ s.length := by
  have := base_decode_foldl_lt alphabet s 0 hv
  simpa [base_decode] using this

theorem vwd_length_fail (cks : ℕ → ℕ → ℕ → ℕ) (code : List Char)
    (h : code.length ≠ 10) :
    validate_with_details cks 4 36 2 DEFAULT_ALPHABET code =
      ⟨false, [lengthErrorMsg 10 code.length], []⟩ := by
  rw [validate_with_details, if_pos (by omega : code.length ≠ 2 * 4 + 2)]

theorem vwd_char_fail (cks : ℕ → ℕ → ℕ → ℕ) (code : List Char)
    (h : code.length = 10)
    (hbad : (code.map pyUpper).filter (fun ch => ! DEFAULT_ALPHABET.contains ch) ≠ []) :
    validate_with_details cks 4 36 2 DEFAULT_ALPHABET code =
      ⟨false, [invalidCharsMsg ((code.map pyUpper).filter (fun ch => ! DEFAULT_ALPHABET.contains ch))],
        if code ≠ code.map pyUpper then [lowercaseWarning] else []⟩ := by
  rw [validate_with_details, if_neg (by omega : ¬ code.length ≠ 2 * 4 + 2)]
  simp only []
  rw [if_pos hbad]

theorem chars_ok_mem {code : List Char}
    (hok : (code.map pyUpper).filter (fun ch => ! DEFAULT_ALPHABET.contains ch) = []) :
    ∀ ch ∈ code.map pyUpper, ch ∈ DEFAULT_ALPHABET := by
  intro ch hch
  rw [List.filter_eq_nil_iff] at hok
  have := hok ch hch
  simpa using this

theorem lat_index_lt {code : List Char} (h : code.length = 10)
    (hok : (code.map pyUpper).filter (fun ch => ! DEFAULT_ALPHABET.contains ch) = []) :
    base_decode ((code.map pyUpper).take 4) DEFAULT_ALPHABET < 36 ^ 4 := by
  have hv : ∀ ch ∈ (code.map pyUpper).take 4, ch ∈ DEFAULT_ALPHABET :=
    fun ch hch => chars_ok_mem hok ch (List.take_subset _ _ hch)
  have hb := base_decode_lt hv
  have hlen : ((code.map pyUpper).take 4).length = 4 := by
    rw [List.length_take, List.length_map, h]; omega
  rw [hlen] at hb
  simpa [DEFAULT_ALPHABET] using hb

theorem lon_index_lt {code : List Char} (h : code.length = 10)
    (hok : (code.map pyUpper).filter (fun ch => ! DEFAULT_ALPHABET.contains ch) = []) :
    base_decode (((code.map pyUpper).drop 4).take 4) DEFAULT_ALPHABET < 36 ^ 4 := by
  have hv : ∀ ch ∈ ((code.map pyUpper).drop 4).take 4, ch ∈ DEFAULT_ALPHABET :=
    fun ch hch => chars_ok_mem hok ch (List.drop_subset _ _ (List.take_subset _ _ hch))
  have hb := base_decode_lt hv
  have hlen : (((code.map pyUpper).drop 4).take 4).length = 4 := by
    rw [List.length_take, List.length_drop, List.length_map, h]; omega
  rw [hlen] at hb
  simpa [DEFAULT_ALPHABET] using hb

theorem vwd_checksum_fail (cks : ℕ → ℕ → ℕ → ℕ) (code : List Char)
    (h : code.length = 10)
    (hok : (code.map pyUpper).filter (fun ch => ! DEFAULT_ALPHABET.contains ch) = [])
    (hmis : base_decode (((code.map pyUpper).drop (2 * 4)).take 2) DEFAULT_ALPHABET ≠
      cks (base_decode ((code.map pyUpper).take 4) DEFAULT_ALPHABET)
        (base_decode (((code.map pyUpper).drop 4).take 4) DEFAULT_ALPHABET) 36) :
    validate_with_details cks 4 36 2 DEFAULT_ALPHABET code =
      ⟨false, [checksumErrorMsg],
        if code ≠ code.map pyUpper then [lowercaseWarning] else []⟩ := by
  rw [validate_with_details, if_neg (by omega : ¬ code.length ≠ 2 * 4 + 2)]
  simp only []
  rw [if_neg (not_not_intro hok),
    if_neg (not_not_intro (lat_index_lt h hok)),
    if_neg (not_not_intro (lon_index_lt h hok)),
    if_pos hmis]
  rfl

theorem vwd_ok (cks : ℕ → ℕ → ℕ → ℕ) (code : List Char)
    (h : code.length = 10)
    (hok : (code.map pyUpper).filter (fun ch => ! DEFAULT_ALPHABET.contains ch) = [])
    (hmatch : base_decode (((code.map pyUpper).drop (2 * 4)).take 2) DEFAULT_ALPHABET =
      cks (base_decode ((code.map pyUpper).take 4) DEFAULT_ALPHABET)
        (base_decode (((code.map pyUpper).drop 4).take 4) DEFAULT_ALPHABET) 36) :
    validate_with_details cks 4 36 2 DEFAULT_ALPHABET code =
      ⟨true, [], if code ≠ code.map pyUpper then [lowercaseWarning] else []⟩ := by
  rw [validate_with_details, if_neg (by omega : ¬ code.length ≠ 2 * 4 + 2)]
  simp only []
  rw [if_neg (not_not_intro hok),
    if_neg (not_not_intro (lat_index_lt h hok)),
    if_neg (not_not_intro (lon_index_lt h hok)),
    if_neg (not_not_intro hmatch)]
  rfl

theorem is_valid_length_fail (cks : ℕ → ℕ → ℕ → ℕ) (code : List Char)
    (h : code.length ≠ 10) :
    is_valid cks 4 36 2 DEFAULT_ALPHABET code = false := by
  rw [is_valid, if_pos (by omega : code.length ≠ 2 * 4 + 2)]

theorem any_eq_true_iff_filter_ne_nil (p : Char → Bool) (l : List Char) :
    l.any p = true ↔ l.filter p ≠ [] := by
  rw [List.any_eq_true, Ne, List.filter_eq_nil_iff]
  push_neg
  simp

theorem is_valid_char_fail (cks : ℕ → ℕ → ℕ → ℕ) (code : List Char)
    (h : code.length = 10)
    (hbad : (code.map pyUpper).filter (fun ch => ! DEFAULT_ALPHABET.contains ch) ≠ []) :
    is_valid cks 4 36 2 DEFAULT_ALPHABET code = false := by
  rw [is_valid, if_neg (by omega : ¬ code.length ≠ 2 * 4 + 2)]
  simp only []
  rw [if_pos ((any_eq_true_iff_filter_ne_nil _ _).mpr hbad)]

theorem is_valid_checksum_fail (cks : ℕ → ℕ → ℕ → ℕ) (code : List Char)
    (h : code.length = 10)
    (hok : (code.map pyUpper).filter (fun ch => ! DEFAULT_ALPHABET.contains ch) = [])
    (hmis : base_decode (((code.map pyUpper).drop (2 * 4)).take 2) DEFAULT_ALPHABET ≠
      cks (base_decode ((code.map pyUpper).take 4) DEFAULT_ALPHABET)
        (base_decode (((code.map pyUpper).drop 4).take 4) DEFAULT_ALPHABET) 36) :
    is_valid cks 4 36 2 DEFAULT_ALPHABET code = false := by
  rw [is_valid, if_neg (by omega : ¬ code.length ≠ 2 * 4 + 2)]
  simp only []
  rw [if_neg ?hany,
    if_neg (not_not_intro (lat_index_lt h hok)),
    if_neg (not_not_intro (lon_index_lt h hok))]
  · simpa using hmis
  case hany =>
    exact fun hcontra => (any_eq_true_iff_filter_ne_nil _ _).mp hcontra hok

theorem is_valid_ok (cks : ℕ → ℕ → ℕ → ℕ) (code : List Char)
    (h : code.length = 10)
    (hok : (code.map pyUpper).filter (fun ch => ! DEFAULT_ALPHABET.contains ch) = [])
    (hmatch : base_decode (((code.map pyUpper).drop (2 * 4)).take 2) DEFAULT_ALPHABET =
      cks (base_decode ((code.map pyUpper).take 4) DEFAULT_ALPHABET)
        (base_decode (((code.map pyUpper).drop 4).take 4) DEFAULT_ALPHABET) 36) :
    is_valid cks 4 36 2 DEFAULT_ALPHABET code = true := by
  rw [is_valid, if_neg (by omega : ¬ code.length ≠ 2 * 4 + 2)]
  simp only []
  rw [if_neg ?hany,
    if_neg (not_not_intro (lat_index_lt h hok)),
    if_neg (not_not_intro (lon_index_lt h hok))]
  · simpa using hmatch
  case hany =>
    exact fun hcontra => (any_eq_true_iff_filter_ne_nil _ _).mp hcontra hok

theorem list_ne_of_getElem9 {l₁ l₂ : List Char} (h : l₁[9]? ≠ l₂[9]?) : l₁ ≠ l₂ :=
  fun he => h (he ▸ rfl)

theorem list_ne_of_getElem0 {l₁ l₂ : List Char} (h : l₁[0]? ≠ l₂[0]?) : l₁ ≠ l₂ :=
  fun he => h (he ▸ rfl)

theorem lengthErrorMsg_ne_invalidCharsMsg (n m : ℕ) (chars : List Char) :
    lengthErrorMsg n m ≠ invalidCharsMsg chars := by
  apply list_ne_of_getElem9
  rw [lengthErrorMsg, invalidCharsMsg, List.append_assoc, List.append_assoc,
    List.getElem?_append_left (by decide : (9:ℕ) < "Invalid code length. Expected ".toList.length),
    List.getElem?_append_left (by decide : (9:ℕ) < "Invalid characters found: ".toList.length)]
  decide

theorem lengthErrorMsg_ne_checksumErrorMsg (n m : ℕ) :
    lengthErrorMsg n m ≠ checksumErrorMsg := by
  apply list_ne_of_getElem0
  rw [lengthErrorMsg, List.append_assoc, List.append_assoc,
    List.getElem?_append_left (by decide : (0:ℕ) < "Invalid code length. Expected ".toList.length)]
  decide

theorem invalidCharsMsg_ne_checksumErrorMsg (chars : List Char) :
    invalidCharsMsg chars ≠ checksumErrorMsg := by
  apply list_ne_of_getElem0
  rw [invalidCharsMsg,
    List.getElem?_append_left (by decide : (0:ℕ) < "Invalid characters found: ".toList.length)]
  decide

/-- C8: with the default parameters (4 characters per axis, base 36, 2
checksum characters), `validate_with_details` reports: a length error exactly
when the length is not 10; an invalid-characters error when the length is 10
but some (case-normalized) character is outside the alphabet; a checksum error
when length and characters are fine but the decoded checksum differs from the
checksum computed from the two decoded axis indices (the index range checks
can never fire: four base-36 digits always decode below `36^4`); `valid` is
true exactly when the error list is empty; and the three failure messages are
pairwise distinct.  Holds for an arbitrary checksum formula `cks`. -/
theorem C8_validate_with_details_reports (cks : ℕ → ℕ → ℕ → ℕ) (code : List Char) :
    (code.length ≠ 10 →
      validate_with_details cks 4 36 2 DEFAULT_ALPHABET code =
        ⟨false, [lengthErrorMsg 10 code.length], []⟩) ∧
    (code.length = 10 →
      (code.map pyUpper).filter (fun ch => ! DEFAULT_ALPHABET.contains ch) ≠ [] →
      validate_with_details cks 4 36 2 DEFAULT_ALPHABET code =
        ⟨false,
         [invalidCharsMsg ((code.map pyUpper).filter (fun ch => ! DEFAULT_ALPHABET.contains ch))],
         if code ≠ code.map pyUpper then [lowercaseWarning] else []⟩) ∧
    (code.length = 10 →
      (code.map pyUpper).filter (fun ch => ! DEFAULT_ALPHABET.contains ch) = [] →
      base_decode (((code.map pyUpper).drop (2 * 4)).take 2) DEFAULT_ALPHABET ≠
        cks (base_decode ((code.map pyUpper).take 4) DEFAULT_ALPHABET)
          (base_decode (((code.map pyUpper).drop 4).take 4) DEFAULT_ALPHABET) 36 →
      validate_with_details cks 4 36 2 DEFAULT_ALPHABET code =
        ⟨false, [checksumErrorMsg],
         if code ≠ code.map pyUpper then [lowercaseWarning] else []⟩) ∧
    (code.length = 10 →
      (code.map pyUpper).filter (fun ch => ! DEFAULT_ALPHABET.contains ch) = [] →
      base_decode (((code.map pyUpper).drop (2 * 4)).take 2) DEFAULT_ALPHABET =
        cks (base_decode ((code.map pyUpper).take 4) DEFAULT_ALPHABET)
          (base_decode (((code.map pyUpper).drop 4).take 4) DEFAULT_ALPHABET) 36 →
      validate_with_details cks 4 36 2 DEFAULT_ALPHABET code =
        ⟨true, [], if code ≠ code.map pyUpper then [lowercaseWarning] else []⟩) ∧
    ((validate_with_details cks 4 36 2 DEFAULT_ALPHABET code).valid = true ↔
      (validate_with_details cks 4 36 2 DEFAULT_ALPHABET code).errors = []) ∧
    ((∀ n m chars, lengthErrorMsg n m ≠ invalidCharsMsg chars) ∧
     (∀ n m, lengthErrorMsg n m ≠ checksumErrorMsg) ∧
     (∀ chars, invalidCharsMsg chars ≠ checksumErrorMsg)) := by
  refine ⟨vwd_length_fail cks code, vwd_char_fail cks code, vwd_checksum_fail cks code,
    vwd_ok cks code, ?_, ?_, ?_, ?_⟩
  · by_cases h1 : code.length = 10
    · by_cases h2 : (code.map pyUpper).filter (fun ch => ! DEFAULT_ALPHABET.contains ch) = []
      · by_cases h3 : base_decode (((code.map pyUpper).drop (2 * 4)).take 2) DEFAULT_ALPHABET =
            cks (base_decode ((code.map pyUpper).take 4) DEFAULT_ALPHABET)
              (base_decode (((code.map pyUpper).drop 4).take 4) DEFAULT_ALPHABET) 36
        · rw [vwd_ok cks code h1 h2 h3]
          simp
        · rw [vwd_checksum_fail cks code h1 h2 h3]
          simp
      · rw [vwd_char_fail cks code h1 h2]
        simp
    · rw [vwd_length_fail cks code h1]
      simp
  · exact lengthErrorMsg_ne_invalidCharsMsg
  · exact lengthErrorMsg_ne_checksumErrorMsg
  · exact invalidCharsMsg_ne_checksumErrorMsg

/-- C9: with the shared default parameters the boolean validator and the
detailed validator agree (`is_valid` equals `validate_with_details(...).valid`),
and both are case-insensitive: a code is accepted exactly when its uppercase
form is, and uppercasing changes at most the warnings, never the errors.
Holds for an arbitrary checksum formula `cks`. -/
theorem C9_validators_agree (cks : ℕ → ℕ → ℕ → ℕ) (code : List Char) :
    is_valid cks 4 36 2 DEFAULT_ALPHABET code =
      (validate_with_details cks 4 36 2 DEFAULT_ALPHABET code).valid ∧
    is_valid cks 4 36 2 DEFAULT_ALPHABET code =
      is_valid cks 4 36 2 DEFAULT_ALPHABET (code.map pyUpper) ∧
    (validate_with_details cks 4 36 2 DEFAULT_ALPHABET code).valid =
      (validate_with_details cks 4 36 2 DEFAULT_ALPHABET (code.map pyUpper)).valid ∧
    (validate_with_details cks 4 36 2 DEFAULT_ALPHABET code).errors =
      (validate_with_details cks 4 36 2 DEFAULT_ALPHABET (code.map pyUpper)).errors := by
  have hu : (code.map pyUpper).map pyUpper = code.map pyUpper := map_pyUpper_idem code
  have hul : (code.map pyUpper).length = code.length := List.length_map code pyUpper
  by_cases h1 : code.length = 10
  · by_cases h2 : (code.map pyUpper).filter (fun ch => ! DEFAULT_ALPHABET.contains ch) = []
    · have h2u : ((code.map pyUpper).map pyUpper).filter
          (fun ch => ! DEFAULT_ALPHABET.contains ch) = [] := by rw [hu]; exact h2
      by_cases h3 : base_decode (((code.map pyUpper).drop (2 * 4)).take 2) DEFAULT_ALPHABET =
          cks (base_decode ((code.map pyUpper).take 4) DEFAULT_ALPHABET)
            (base_decode (((code.map pyUpper).drop 4).take 4) DEFAULT_ALPHABET) 36
      · have h3u : base_decode ((((code.map pyUpper).map pyUpper).drop (2 * 4)).take 2)
            DEFAULT_ALPHABET =
            cks (base_decode (((code.map pyUpper).map pyUpper).take 4) DEFAULT_ALPHABET)
              (base_decode ((((code.map pyUpper).map pyUpper).drop 4).take 4)
                DEFAULT_ALPHABET) 36 := by rw [hu]; exact h3
        rw [is_valid_ok cks code h1 h2 h3, vwd_ok cks code h1 h2 h3,
          is_valid_ok cks (code.map pyUpper) (by omega) h2u h3u,
          vwd_ok cks (code.map pyUpper) (by omega) h2u h3u]
        simp
      · have h3u : ¬ (base_decode ((((code.map pyUpper).map pyUpper).drop (2 * 4)).take 2)
            DEFAULT_ALPHABET =
            cks (base_decode (((code.map pyUpper).map pyUpper).take 4) DEFAULT_ALPHABET)
              (base_decode ((((code.map pyUpper).map pyUpper).drop 4).take 4)
                DEFAULT_ALPHABET) 36) := by rw [hu]; exact h3
        rw [is_valid_checksum_fail cks code h1 h2 h3, vwd_checksum_fail cks code h1 h2 h3,
          is_valid_checksum_fail cks (code.map pyUpper) (by omega) h2u h3u,
          vwd_checksum_fail cks (code.map pyUpper) (by omega) h2u h3u]
        simp
    · have h2u : ((code.map pyUpper).map pyUpper).filter
          (fun ch => ! DEFAULT_ALPHABET.contains ch) ≠ [] := by rw [hu]; exact h2
      rw [is_valid_char_fail cks code h1 h2, vwd_char_fail cks code h1 h2,
        is_valid_char_fail cks (code.map pyUpper) (by omega) h2u,
        vwd_char_fail cks (code.map pyUpper) (by omega) h2u]
      refine ⟨rfl, rfl, rfl, ?_⟩
      simp [hu]
  · rw [is_valid_length_fail cks code h1, vwd_length_fail cks code h1,
      is_valid_length_fail cks (code.map pyUpper) (by omega),
      vwd_length_fail cks (code.map pyUpper) (by omega)]
    refine ⟨rfl, rfl, rfl, ?_⟩
    simp [hul]

/-- Witness for C8: concrete codes exercising the three failure kinds and the
success case, under the sample checksum formula. -/
theorem C8_witness :
    validate_with_details demoChecksum 4 36 2 DEFAULT_ALPHABET "ABC".toList =
      ⟨false, [lengthErrorMsg 10 3], []⟩ ∧
    validate_with_details demoChecksum 4 36 2 DEFAULT_ALPHABET "ABCDEFGH!J".toList =
      ⟨false, [invalidCharsMsg ['!']], []⟩ ∧
    validate_with_details demoChecksum 4 36 2 DEFAULT_ALPHABET "0000000001".toList =
      ⟨false, [checksumErrorMsg], []⟩ ∧
    validate_with_details demoChecksum 4 36 2 DEFAULT_ALPHABET "0000000000".toList =
      ⟨true, [], []⟩ := by
  have h1 := (C8_validate_with_details_reports demoChecksum "ABC".toList).1 (by decide)
  have h2 := (C8_validate_with_details_reports demoChecksum "ABCDEFGH!J".toList).2.1
    (by decide) (by decide)
  have h3 := (C8_validate_with_details_reports demoChecksum "0000000001".toList).2.2.1
    (by decide) (by decide) (by decide)
  have h4 := (C8_validate_with_details_reports demoChecksum "0000000000".toList).2.2.2.1
    (by decide) (by decide) (by decide)
  refine ⟨?_, ?_, ?_, ?_⟩
  · rw [h1]; decide
  · rw [h2]; decide
  · rw [h3]; decide
  · rw [h4]; decide

/-- Witness for C9 on a concrete lowercase code: both validators agree, both
accept the code iff they accept its uppercase form, and the error lists agree
between the lowercase and uppercase code. -/
theorem C9_witness :
    (is_valid demoChecksum 4 36 2 DEFAULT_ALPHABET "00000000ab".toList =
      (validate_with_details demoChecksum 4 36 2 DEFAULT_ALPHABET "00000000ab".toList).valid) ∧
    (is_valid demoChecksum 4 36 2 DEFAULT_ALPHABET "00000000ab".toList =
      is_valid demoChecksum 4 36 2 DEFAULT_ALPHABET ("00000000ab".toList.map pyUpper)) ∧
    ((validate_with_details demoChecksum 4 36 2 DEFAULT_ALPHABET "00000000ab".toList).errors =
      (validate_with_details demoChecksum 4 36 2 DEFAULT_ALPHABET
        ("00000000ab".toList.map pyUpper)).errors) := by
  obtain ⟨h1, h2, _, h4⟩ := C9_validators_agree demoChecksum "00000000ab".toList
  exact ⟨h1, h2, h4⟩

/-! ## C10: `get_polygon_boundary` is the componentwise envelope -/

/-- The accumulating loop of `get_polygon_boundary` computes a rectangle that
bounds the accumulator and the bounds of every remaining code, with each
component attained either at the accumulator or at some code. -/
theorem envLoop_spec (rest : List (List Char)) :
    ∀ acc : ℚ × ℚ × ℚ × ℚ, (∀ c ∈ rest, (get_bounds c).isSome = true) →
    ∃ r : ℚ × ℚ × ℚ × ℚ, envLoop acc rest = some r ∧
      (r.1 ≤ acc.1 ∧ acc.2.1 ≤ r.2.1 ∧ r.2.2.1 ≤ acc.2.2.1 ∧ acc.2.2.2 ≤ r.2.2.2) ∧
      (∀ c ∈ rest, ∀ b, get_bounds c = some b →
        r.1 ≤ b.latMin ∧ b.latMax ≤ r.2.1 ∧ r.2.2.1 ≤ b.lonMin ∧ b.lonMax ≤ r.2.2.2) ∧
      ((r.1 = acc.1 ∨ ∃ c ∈ rest, ∃ b, get_bounds c = some b ∧ b.latMin = r.1) ∧
       (r.2.1 = acc.2.1 ∨ ∃ c ∈ rest, ∃ b, get_bounds c = some b ∧ b.latMax = r.2.1) ∧
       (r.2.2.1 = acc.2.2.1 ∨ ∃ c ∈ rest, ∃ b, get_bounds c = some b ∧ b.lonMin = r.2.2.1) ∧
       (r.2.2.2 = acc.2.2.2 ∨ ∃ c ∈ rest, ∃ b, get_bounds c = some b ∧ b.lonMax = r.2.2.2)) := by
  induction rest with
  | nil =>
    intro acc _
    exact ⟨acc, rfl, ⟨le_refl _, le_refl _, le_refl _, le_refl _⟩,
      fun c hc => absurd hc (by simp), Or.inl rfl, Or.inl rfl, Or.inl rfl, Or.inl rfl⟩
  | cons c cs ih =>
    intro acc hsome
    obtain ⟨b, hb⟩ := Option.isSome_iff_exists.mp (hsome c (by simp))
    obtain ⟨r, hr, hacc, hall, hat⟩ := ih
      (min acc.1 b.latMin, max acc.2.1 b.latMax,
       min acc.2.2.1 b.lonMin, max acc.2.2.2 b.lonMax)
      (fun x hx => hsome x (by simp [hx]))
    dsimp only at hacc hat
    refine ⟨r, ?_, ?_, ?_, ?_⟩
    · rw [envLoop, hb]
      exact hr
    · obtain ⟨a1, a2, a3, a4⟩ := hacc
      exact ⟨le_trans a1 (min_le_left _ _), le_trans (le_max_left _ _) a2,
        le_trans a3 (min_le_left _ _), le_trans (le_max_left _ _) a4⟩
    · intro x hx bx hbx
      rcases List.mem_cons.mp hx with hxc | hxcs
      · subst hxc
        rw [hb] at hbx
        obtain rfl : b = bx := Option.some_inj.mp hbx
        obtain ⟨a1, a2, a3, a4⟩ := hacc
        exact ⟨le_trans a1 (min_le_right _ _), le_trans (le_max_right _ _) a2,
          le_trans a3 (min_le_right _ _), le_trans (le_max_right _ _) a4⟩
      · exact hall x hxcs bx hbx
    · obtain ⟨t1, t2, t3, t4⟩ := hat
      refine ⟨?_, ?_, ?_, ?_⟩
      · rcases t1 with h | ⟨x, hx, bx, hbx, hval⟩
        · rcases min_cases acc.1 b.latMin with ⟨hmin, _⟩ | ⟨hmin, _⟩
          · exact Or.inl (by rw [h, hmin])
          · exact Or.inr ⟨c, by simp, b, hb, by rw [h, hmin]⟩
        · exact Or.inr ⟨x, by simp [hx], bx, hbx, hval⟩
      · rcases t2 with h | ⟨x, hx, bx, hbx, hval⟩
        · rcases max_cases acc.2.1 b.latMax with ⟨hmax, _⟩ | ⟨hmax, _⟩
          · exact Or.inl (by rw [h, hmax])
          · exact Or.inr ⟨c, by simp, b, hb, by rw [h, hmax]⟩
        · exact Or.inr ⟨x, by simp [hx], bx, hbx, hval⟩
      · rcases t3 with h | ⟨x, hx, bx, hbx, hval⟩
        · rcases min_cases acc.2.2.1 b.lonMin with ⟨hmin, _⟩ | ⟨hmin, _⟩
          · exact Or.inl (by rw [h, hmin])
          · exact Or.inr ⟨c, by simp, b, hb, by rw [h, hmin]⟩
        · exact Or.inr ⟨x, by simp [hx], bx, hbx, hval⟩
      · rcases t4 with h | ⟨x, hx, bx, hbx, hval⟩
        · rcases max_cases acc.2.2.2 b.lonMax with ⟨hmax, _⟩ | ⟨hmax, _⟩
          · exact Or.inl (by rw [h, hmax])
          · exact Or.inr ⟨c, by simp, b, hb, by rw [h, hmax]⟩
        · exact Or.inr ⟨x, by simp [hx], bx, hbx, hval⟩

/-- C10: `get_polygon_boundary([])` is exactly `(0, 0, 0, 0)`, and for every
non-empty list of decodable codes the result is the componentwise envelope of
the codes' bounding rectangles: each component bounds the corresponding
component of every code's rectangle and is attained by some code — the
smallest axis-aligned rectangle containing the bounds of every listed code. -/
theorem C10_polygon_boundary :
    get_polygon_boundary [] = some (0, 0, 0, 0) ∧
    ∀ codes : List (List Char), codes ≠ [] →
      (∀ c ∈ codes, (get_bounds c).isSome = true) →
      ∃ r1 r2 r3 r4 : ℚ, get_polygon_boundary codes = some (r1, r2, r3, r4) ∧
        (∀ c ∈ codes, ∀ b, get_bounds c = some b →
          r1 ≤ b.latMin ∧ b.latMax ≤ r2 ∧ r3 ≤ b.lonMin ∧ b.lonMax ≤ r4) ∧
        (∃ c ∈ codes, ∃ b, get_bounds c = some b ∧ b.latMin = r1) ∧
        (∃ c ∈ codes, ∃ b, get_bounds c = some b ∧ b.latMax = r2) ∧
        (∃ c ∈ codes, ∃ b, get_bounds c = some b ∧ b.lonMin = r3) ∧
        (∃ c ∈ codes, ∃ b, get_bounds c = some b ∧ b.lonMax = r4) := by
  refine ⟨rfl, ?_⟩
  intro codes hne hsome
  match codes, hne with
  | c :: rest, _ =>
    obtain ⟨b, hb⟩ := Option.isSome_iff_exists.mp (hsome c (by simp))
    obtain ⟨r, hr, hacc, hall, hat⟩ := envLoop_spec rest
      (b.latMin, b.latMax, b.lonMin, b.lonMax)
      (fun x hx => hsome x (by simp [hx]))
    dsimp only at hacc hat
    obtain ⟨a1, a2, a3, a4⟩ := hacc
    refine ⟨r.1, r.2.1, r.2.2.1, r.2.2.2, ?_, ?_, ?_, ?_, ?_, ?_⟩
    · rw [get_polygon_boundary, hb]
      dsimp only
      rw [hr]
    · intro x hx bx hbx
      rcases List.mem_cons.mp hx with hxc | hxcs
      · subst hxc
        rw [hb] at hbx
        obtain rfl : b = bx := Option.some_inj.mp hbx
        exact ⟨a1, a2, a3, a4⟩
      · exact hall x hxcs bx hbx
    · rcases hat.1 with h | ⟨x, hx, bx, hbx, hval⟩
      · exact ⟨c, by simp, b, hb, h.symm⟩
      · exact ⟨x, by simp [hx], bx, hbx, hval⟩
    · rcases hat.2.1 with h | ⟨x, hx, bx, hbx, hval⟩
      · exact ⟨c, by simp, b, hb, h.symm⟩
      · exact ⟨x, by simp [hx], bx, hbx, hval⟩
    · rcases hat.2.2.1 with h | ⟨x, hx, bx, hbx, hval⟩
      · exact ⟨c, by simp, b, hb, h.symm⟩
      · exact ⟨x, by simp [hx], bx, hbx, hval⟩
    · rcases hat.2.2.2 with h | ⟨x, hx, bx, hbx, hval⟩
      · exact ⟨c, by simp, b, hb, h.symm⟩
      · exact ⟨x, by simp [hx], bx, hbx, hval⟩

/-- Witness for C10 at the concrete codes `"2"` and `"3"`. -/
theorem C10_witness :
    get_polygon_boundary [] = some (0, 0, 0, 0) ∧
    ∃ r1 r2 r3 r4 : ℚ, get_polygon_boundary [['2'], ['3']] = some (r1, r2, r3, r4) ∧
      (∀ c ∈ [['2'], ['3']], ∀ b, get_bounds c = some b →
        r1 ≤ b.latMin ∧ b.latMax ≤ r2 ∧ r3 ≤ b.lonMin ∧ b.lonMax ≤ r4) := by
  obtain ⟨h0, h⟩ := C10_polygon_boundary
  obtain ⟨r1, r2, r3, r4, hr, hall, _⟩ := h [['2'], ['3']] (by simp)
    (by intro c hc; fin_cases hc <;> decide)
  exact ⟨h0, r1, r2, r3, r4, hr, hall⟩

theorem except_toOption_eq_some {ε α : Type} (e : Except ε α) (a : α) :
    e.toOption = some a ↔ e = .ok a := by
  cases e <;> simp [Except.toOption]

theorem lt_scanCount_iff {lo hi step : ℚ} (hstep : 0 < step) (k : ℕ) :
    k < scanCount lo hi step ↔ scanPt lo step k < hi := by
  rw [scanCount, scanPt, Int.lt_toNat, Int.lt_ceil]
  push_cast
  rw [lt_sub_iff_add_lt, lt_div_iff₀ hstep]
  constructor <;> intro h <;> linarith

theorem mem_scanPts {lo hi step x : ℚ} :
    x ∈ scanPts lo hi step ↔
      ∃ k : ℕ, k < scanCount lo hi step ∧ x = scanPt lo step k := by
  simp only [scanPts, List.mem_map, List.mem_range]
  constructor
  · rintro ⟨k, hk, rfl⟩
    exact ⟨k, hk, rfl⟩
  · rintro ⟨k, hk, rfl⟩
    exact ⟨k, hk, rfl⟩

/-- Membership in the grid-scan result: a code is returned exactly when some
scanned sample point — offset half a step from the polygon's bounding-box
minimum — is contained in the polygon and encodes to that code. -/
theorem polyfill_grid_mem (poly : PreparedPolygon) (p : ℕ)
    (hp : 1 ≤ p ∧ p ≤ 10) (code : List Char) (gr : List (List Char))
    (hgr : polyfill_grid poly p = .ok gr) :
    code ∈ gr ↔ ∃ k j : ℕ,
      k < scanCount poly.minLat poly.maxLat (get_grid_size p).1 ∧
      j < scanCount poly.minLon poly.maxLon (get_grid_size p).2 ∧
      poly.contains (scanPt poly.minLon (get_grid_size p).2 j)
        (scanPt poly.minLat (get_grid_size p).1 k) = true ∧
      encode (scanPt poly.minLat (get_grid_size p).1 k)
        (scanPt poly.minLon (get_grid_size p).2 j) p = .ok code := by
  rw [polyfill_grid, if_neg (not_not_intro hp)] at hgr
  obtain rfl : _ = gr := Except.ok.inj hgr
  rw [List.mem_flatMap]
  constructor
  · rintro ⟨lat, hlat, hmem⟩
    obtain ⟨lon, hlon, hf⟩ := List.mem_filterMap.mp hmem
    obtain ⟨k, hk, hkeq⟩ := mem_scanPts.mp hlat
    obtain ⟨j, hj, hjeq⟩ := mem_scanPts.mp hlon
    refine ⟨k, j, hk, hj, ?_⟩
    rw [← hkeq, ← hjeq]
    by_cases hc : poly.contains lon lat = true
    · rw [if_pos hc] at hf
      exact ⟨hc, (except_toOption_eq_some _ _).mp hf⟩
    · rw [if_neg hc] at hf
      exact absurd hf (by simp)
  · rintro ⟨k, j, hk, hj, hc, henc⟩
    refine ⟨_, mem_scanPts.mpr ⟨k, hk, rfl⟩, List.mem_filterMap.mpr
      ⟨_, mem_scanPts.mpr ⟨j, hj, rfl⟩, ?_⟩⟩
    rw [if_pos hc]
    exact (except_toOption_eq_some _ _).mpr henc

/-! ## C5: a polygon entirely outside the Region yields an empty result -/

/-- C5: for every prepared polygon that contains only points outside the
Region, and every precision in `[1, 10]`, the grid-scan polyfill returns `ok`
with the empty list: the out-of-region range errors raised by `encode` at
scanned points are swallowed inside the scan (`except ValueError: pass`), so
no error propagates to the caller. -/
theorem C5_outside_region_empty (poly : PreparedPolygon) (p : ℕ)
    (hp : 1 ≤ p ∧ p ≤ 10)
    (houtside : ∀ lon lat : ℚ, poly.contains lon lat = true → ¬ inRegion lat lon) :
    polyfill_grid poly p = .ok [] := by
  rw [polyfill_grid, if_neg (not_not_intro hp)]
  congr 1
  rw [List.flatMap_eq_nil_iff]
  intro lat _
  rw [List.filterMap_eq_nil_iff]
  intro lon _
  by_cases hc : poly.contains lon lat = true
  · rw [if_pos hc, encode, if_pos (houtside lon lat hc)]
    rfl
  · rw [if_neg hc]

/-- Witness for C5: a square polygon north-east of the Region (latitudes
40..58, longitudes 100..118), whose scan does visit contained points, returns
`ok []` at precision 1. -/
theorem C5_witness :
    polyfill_grid (rectPoly 40 58 100 118) 1 = .ok [] := by
  apply C5_outside_region_empty (rectPoly 40 58 100 118) 1 (by norm_num)
  intro lon lat hc hin
  rw [rectPoly] at hc
  simp only [decide_eq_true_eq] at hc
  obtain ⟨_, _, h3, _⟩ := hc
  obtain ⟨_, h2, _, _⟩ := hin
  rw [LAT_MAX] at h2
  linarith

/-! ## C4: the polyfill entry point and invalid precision -/

/-- C4 (amended): an invalid precision makes the polyfill entry point fail
with the invalid-precision error before any bounding-box read, geometry
preparation or containment query — but *after* the input coordinate list (if
one was given) has already been turned into a polygon object, since the
source normalizes the input before checking the precision.  The original
claim's "no polygon object is constructed" is refuted by
`C4_counterexample`. -/
theorem C4_entry_precision_guard (mk : List (ℚ × ℚ) → PreparedPolygon)
    (input : Sum (List (ℚ × ℚ)) PreparedPolygon) (p : ℕ)
    (hp : ¬ (1 ≤ p ∧ p ≤ 10)) :
    (polyfill_entry mk input p).1 = .error "Precision must be between 1 and 10" ∧
    GeoEvent.boundsRead ∉ (polyfill_entry mk input p).2 ∧
    GeoEvent.geometryPrepared ∉ (polyfill_entry mk input p).2 ∧
    GeoEvent.containsQueried ∉ (polyfill_entry mk input p).2 := by
  cases input <;> (rw [polyfill_entry]; simp only [if_pos hp]; simp)

/-- C4 counterexample: at precision 0 with a list input, the entry point does
report the invalid-precision error, but its interaction trace already
contains the polygon construction — the polygon object *is* constructed from
the input coordinate list before the precision check fires, contradicting the
claim that no polygon object is constructed. -/
theorem C4_counterexample :
    (polyfill_entry (fun _ => rectPoly 40 58 100 118)
      (.inl [(2863/100, 7722/100), (2862/100, 7721/100), (2862/100, 7723/100)]) 0).1 =
      .error "Precision must be between 1 and 10" ∧
    (polyfill_entry (fun _ => rectPoly 40 58 100 118)
      (.inl [(2863/100, 7722/100), (2862/100, 7721/100), (2862/100, 7723/100)]) 0).2 =
      [GeoEvent.polygonConstructed] ∧
    GeoEvent.polygonConstructed ∈
      (polyfill_entry (fun _ => rectPoly 40 58 100 118)
        (.inl [(2863/100, 7722/100), (2862/100, 7721/100), (2862/100, 7723/100)]) 0).2 := by
  rw [polyfill_entry]
  norm_num

/-- Witness for C4 at precision 11 with a list input. -/
theorem C4_witness :
    (polyfill_entry (fun _ => rectPoly 40 58 100 118)
      (.inl [(2863/100, 7722/100)]) 11).1 =
      .error "Precision must be between 1 and 10" ∧
    GeoEvent.boundsRead ∉
      (polyfill_entry (fun _ => rectPoly 40 58 100 118) (.inl [(2863/100, 7722/100)]) 11).2 ∧
    GeoEvent.geometryPrepared ∉
      (polyfill_entry (fun _ => rectPoly 40 58 100 118) (.inl [(2863/100, 7722/100)]) 11).2 ∧
    GeoEvent.containsQueried ∉
      (polyfill_entry (fun _ => rectPoly 40 58 100 118) (.inl [(2863/100, 7722/100)]) 11).2 :=
  C4_entry_precision_guard (fun _ => rectPoly 40 58 100 118)
    (.inl [(2863/100, 7722/100)]) 11 (by norm_num)

/-! ## C1: the grid scan does NOT implement the cell-center rule -/

/-- C1 (amended): for every prepared polygon and precision in `[1, 10]`, the
grid-scan polyfill returns exactly the codes of the scanned sample points the
polygon contains, where the sample points are offset half a cell step from
the polygon's own bounding-box minimum (not the cells' center points): a code
is in the result iff some sample point `(bbox_min + step/2 + k*step)` lies in
the polygon and encodes to it.  These sample points coincide with cell
centers only when the bounding box is aligned to the precision-`p` grid; the
original center-point rule is refuted by `C1_counterexample`. -/
theorem C1_grid_scan_rule (poly : PreparedPolygon) (p : ℕ)
    (hp : 1 ≤ p ∧ p ≤ 10) (code : List Char) (gr : List (List Char))
    (hgr : polyfill_grid poly p = .ok gr) :
    code ∈ gr ↔ ∃ k j : ℕ,
      k < scanCount poly.minLat poly.maxLat (get_grid_size p).1 ∧
      j < scanCount poly.minLon poly.maxLon (get_grid_size p).2 ∧
      poly.contains (scanPt poly.minLon (get_grid_size p).2 j)
        (scanPt poly.minLat (get_grid_size p).1 k) = true ∧
      encode (scanPt poly.minLat (get_grid_size p).1 k)
        (scanPt poly.minLon (get_grid_size p).2 j) p = .ok code :=
  polyfill_grid_mem poly p hp code gr hgr

/-- C1 counterexample: the polygon is the small rectangle
`24.9 ≤ lat ≤ 25.1`, `85.9 ≤ lon ≤ 86.1`.  It strictly contains `(25, 86)`,
the center of the precision-1 cell `"2"`, so under the claimed center-point
rule the result would contain `"2"`; but the grid scan's first sample point
`24.9 + 4.5 = 29.4` already exceeds the bounding box's maximum latitude
`25.1`, so the scan visits no point at all and the result is empty. -/
theorem C1_counterexample :
    polyfill_grid (rectPoly (249/10) (251/10) (859/10) (861/10)) 1 = .ok [] ∧
    get_bounds ['2'] = some ⟨41/2, 59/2, 163/2, 181/2⟩ ∧
    decode ['2'] = some (25, 86) ∧
    (rectPoly (249/10) (251/10) (859/10) (861/10)).contains 86 25 = true ∧
    ['2'] ∉ ([] : List (List Char)) := by
  refine ⟨?_, ?_, ?_, ?_, by simp⟩
  · have h0 : scanCount (249/10) (251/10) (get_grid_size 1).1 = 0 := by
      norm_num [scanCount, get_grid_size, LAT_SPAN, LAT_MIN, LAT_MAX]
      rw [Int.ceil_le]
      norm_num
    rw [polyfill_grid, if_neg (by norm_num)]
    rw [show (rectPoly (249/10) (251/10) (859/10) (861/10)).minLat = 249/10 from rfl,
      show (rectPoly (249/10) (251/10) (859/10) (861/10)).maxLat = 251/10 from rfl]
    simp [scanPts, h0]
  · rw [get_bounds, show ['2'].map pyUpper = ['2'] from by decide]
    norm_num [boundsFold, boundsStep, posOfSymbol, mkSub, regionBounds,
      LAT_MIN, LAT_MAX, LON_MIN, LON_MAX]
  · rw [decode, get_bounds, show ['2'].map pyUpper = ['2'] from by decide]
    norm_num [boundsFold, boundsStep, posOfSymbol, mkSub, regionBounds,
      LAT_MIN, LAT_MAX, LON_MIN, LON_MAX]
  · rw [rectPoly]
    norm_num

/-- Witness for C1's amended scan-point rule: on the rectangle
`21..30.6 × 82..91.6` at precision 1 the scan visits exactly one point,
`(25.5, 86.5)`, which the polygon contains and which encodes to `"2"`; the
result list is `["2"]` and membership matches the scan-point rule. -/
theorem C1_witness :
    polyfill_grid (rectPoly 21 (153/5) 82 (458/5)) 1 = .ok [['2']] ∧
    (['2'] ∈ [(['2'] : List Char)] ↔ ∃ k j : ℕ,
      k < scanCount (rectPoly 21 (153/5) 82 (458/5)).minLat
        (rectPoly 21 (153/5) 82 (458/5)).maxLat (get_grid_size 1).1 ∧
      j < scanCount (rectPoly 21 (153/5) 82 (458/5)).minLon
        (rectPoly 21 (153/5) 82 (458/5)).maxLon (get_grid_size 1).2 ∧
      (rectPoly 21 (153/5) 82 (458/5)).contains
        (scanPt (rectPoly 21 (153/5) 82 (458/5)).minLon (get_grid_size 1).2 j)
        (scanPt (rectPoly 21 (153/5) 82 (458/5)).minLat (get_grid_size 1).1 k) = true ∧
      encode (scanPt (rectPoly 21 (153/5) 82 (458/5)).minLat (get_grid_size 1).1 k)
        (scanPt (rectPoly 21 (153/5) 82 (458/5)).minLon (get_grid_size 1).2 j) 1 =
        .ok ['2']) := by
  have hceil : ⌈(17 : ℚ)/30⌉ = (1 : ℤ) := by
    rw [Int.ceil_eq_iff] <;> norm_num
  have hlat : scanCount 21 (153/5) (get_grid_size 1).1 = 1 := by
    norm_num [scanCount, get_grid_size, LAT_SPAN, LAT_MIN, LAT_MAX]
    rw [hceil]
    decide
  have hlon : scanCount 82 (458/5) (get_grid_size 1).2 = 1 := by
    norm_num [scanCount, get_grid_size, LON_SPAN, LON_MIN, LON_MAX]
    rw [hceil]
    decide
  have henc : encode (scanPt 21 (get_grid_size 1).1 0) (scanPt 82 (get_grid_size 1).2 0) 1 =
      .ok ['2'] := by
    rw [encode, if_neg (by norm_num [inRegion, scanPt, get_grid_size, LAT_SPAN, LON_SPAN,
      LAT_MIN, LAT_MAX, LON_MIN, LON_MAX]), if_neg (by norm_num)]
    norm_num [encodeLoop, axisIdx, mkSub, gridChar, regionBounds, scanPt, get_grid_size,
      LAT_SPAN, LON_SPAN, LAT_MIN, LAT_MAX, LON_MIN, LON_MAX]
  have hgr : polyfill_grid (rectPoly 21 (153/5) 82 (458/5)) 1 = .ok [['2']] := by
    rw [polyfill_grid, if_neg (by norm_num)]
    rw [show (rectPoly 21 (153/5) 82 (458/5)).minLat = 21 from rfl,
      show (rectPoly 21 (153/5) 82 (458/5)).maxLat = 153/5 from rfl,
      show (rectPoly 21 (153/5) 82 (458/5)).minLon = 82 from rfl,
      show (rectPoly 21 (153/5) 82 (458/5)).maxLon = 458/5 from rfl]
    rw [scanPts, scanPts, hlat, hlon, show List.range 1 = [0] from by decide]
    simp only [List.map_cons, List.map_nil, List.flatMap_cons,
      List.flatMap_nil, List.filterMap_cons, List.filterMap_nil]
    rw [if_pos (by rw [rectPoly]; norm_num [scanPt, get_grid_size, LAT_SPAN, LON_SPAN,
      LAT_MIN, LAT_MAX, LON_MIN, LON_MAX] : (rectPoly 21 (153/5) 82 (458/5)).contains
        (scanPt 82 (get_grid_size 1).2 0) (scanPt 21 (get_grid_size 1).1 0) = true)]
    rw [henc]
    rfl
  exact ⟨hgr, C1_grid_scan_rule (rectPoly 21 (153/5) 82 (458/5)) 1
    (by norm_num) ['2'] [['2']] hgr⟩

/-! ## C2: quadtree vs grid scan -/

theorem mem_expandFully (fuel : ℕ) :
    ∀ (pre code : List Char), code ∈ expandFully pre fuel ↔
      ∃ suf, code = pre ++ suf ∧ suf.length = fuel ∧
        ∀ ch ∈ suf, ch ∈ DIGIPIN_ALPHABET := by
  induction fuel with
  | zero =>
    intro pre code
    simp only [expandFully, List.mem_singleton]
    constructor
    · rintro rfl
      exact ⟨[], by simp⟩
    · rintro ⟨suf, rfl, hlen, _⟩
      rw [List.length_eq_zero.mp hlen, List.append_nil]
  | succ n ih =>
    intro pre code
    simp only [expandFully, List.mem_flatMap]
    constructor
    · rintro ⟨s, hs, hmem⟩
      obtain ⟨suf, rfl, hlen, hv⟩ := (ih (pre ++ [s]) _).mp hmem
      refine ⟨s :: suf, by simp, by simp [hlen], ?_⟩
      intro ch hch
      rcases List.mem_cons.mp hch with rfl | h
      · exact hs
      · exact hv ch h
    · rintro ⟨suf, rfl, hlen, hv⟩
      cases suf with
      | nil => simp at hlen
      | cons s suf' =>
        refine ⟨s, hv s (by simp), (ih (pre ++ [s]) _).mpr ⟨suf', by simp, ?_, ?_⟩⟩
        · simpa using hlen
        · exact fun ch hch => hv ch (by simp [hch])

/-- The center of a well-formed rectangle lies strictly inside it. -/
theorem center_strictInB {b : Bounds} (hb : b.wf) :
    b.strictInB ((b.latMin + b.latMax) / 2) ((b.lonMin + b.lonMax) / 2) := by
  obtain ⟨h1, h2⟩ := hb
  exact ⟨by linarith, by linarith, by linarith, by linarith⟩

/-- Membership in the quadtree descent, for any polygon whose rectangle
oracle is consistent with its point oracle (`Hout`: a rectangle reported
disjoint contains no polygon point; `Hin`: a rectangle reported fully covered
has its whole interior in the polygon): a code is produced exactly when it
extends the current cell's code to the target depth with alphabet characters
and the polygon contains the center of its cell. -/
theorem quadRec_mem (poly : PreparedPolygon)
    (Hout : ∀ b : Bounds, poly.intersectsRect b = false →
      ∀ lat lon, b.inB lat lon → poly.contains lon lat = false)
    (Hin : ∀ b : Bounds, poly.containsRect b = true →
      ∀ lat lon, b.strictInB lat lon → poly.contains lon lat = true) :
    ∀ (fuel : ℕ) (pre : List Char) (b : Bounds), b.wf →
      ∀ code, code ∈ quadRec poly pre b fuel ↔
        ∃ suf, code = pre ++ suf ∧ suf.length = fuel ∧
          (∀ ch ∈ suf, ch ∈ DIGIPIN_ALPHABET) ∧
          ∃ b', boundsFold b suf = some b' ∧
            poly.contains ((b'.lonMin + b'.lonMax) / 2) ((b'.latMin + b'.latMax) / 2) = true := by
  intro fuel
  induction fuel with
  | zero =>
    intro pre b hwf code
    rw [quadRec]
    rcases hcl : classifyCell poly b with _ | _ | _
    · -- outside: the center of b is not contained, so both sides are false
      rw [classifyCell] at hcl
      split_ifs at hcl with h1 h2
      simp only [List.not_mem_nil, false_iff]
      rintro ⟨suf, rfl, hlen, _, b', hfold, hcont⟩
      obtain rfl : suf = [] := List.length_eq_zero.mp hlen
      simp only [boundsFold, Option.some_inj] at hfold
      subst hfold
      have := Hout b h1 _ _ (Bounds.inB_of_strictInB (center_strictInB hwf))
      rw [this] at hcont
      exact absurd hcont (by simp)
    · -- inside: the single cell is returned and its center is contained
      rw [classifyCell] at hcl
      split_ifs at hcl with h1 h2
      rw [expandFully]
      simp only [List.mem_singleton]
      constructor
      · rintro rfl
        exact ⟨[], by simp, rfl, by simp, b, rfl,
          Hin b h2 _ _ (center_strictInB hwf)⟩
      · rintro ⟨suf, rfl, hlen, _, _, _, _⟩
        rw [List.length_eq_zero.mp hlen, List.append_nil]
    · -- intersects at the leaf: exact center test
      constructor
      · intro hmem
        split_ifs at hmem with hcont
        · obtain rfl : code = pre := List.mem_singleton.mp hmem
          exact ⟨[], by simp, rfl, by simp, b, rfl, hcont⟩
        · exact absurd hmem (by simp)
      · rintro ⟨suf, rfl, hlen, _, b', hfold, hcont⟩
        obtain rfl : suf = [] := List.length_eq_zero.mp hlen
        simp only [boundsFold, Option.some_inj] at hfold
        subst hfold
        rw [if_pos hcont]
        simp
  | succ n ih =>
    intro pre b hwf code
    rw [quadRec]
    rcases hcl : classifyCell poly b with _ | _ | _
    · -- outside: no descendant center is contained
      rw [classifyCell] at hcl
      split_ifs at hcl with h1 h2
      simp only [List.not_mem_nil, false_iff]
      rintro ⟨suf, rfl, hlen, hv, b', hfold, hcont⟩
      have hsub : b'.subset b := boundsFold_subset hwf hfold
      have hwf' : b'.wf := boundsFold_wf hwf hfold
      have hin : b.inB ((b'.latMin + b'.latMax) / 2) ((b'.lonMin + b'.lonMax) / 2) :=
        Bounds.inB_of_subset hsub (Bounds.inB_of_strictInB (center_strictInB hwf'))
      have := Hout b h1 _ _ hin
      rw [this] at hcont
      exact absurd hcont (by simp)
    · -- inside: all descendants are returned and all their centers contained
      rw [classifyCell] at hcl
      split_ifs at hcl with h1 h2
      rw [mem_expandFully]
      constructor
      · rintro ⟨suf, rfl, hlen, hv⟩
        obtain ⟨b', hfold⟩ := boundsFold_isSome hv b
        have hwf' : b'.wf := boundsFold_wf hwf hfold
        have hsub : b'.subset b := boundsFold_subset hwf hfold
        have hstr : b.strictInB ((b'.latMin + b'.latMax) / 2) ((b'.lonMin + b'.lonMax) / 2) :=
          Bounds.strictInB_of_subset hsub (center_strictInB hwf')
        exact ⟨suf, rfl, hlen, hv, b', hfold, Hin b h2 _ _ hstr⟩
      · rintro ⟨suf, rfl, hlen, hv, _, _, _⟩
        exact ⟨suf, rfl, hlen, hv⟩
    · -- intersects: recurse into the sixteen children
      rw [List.mem_flatMap]
      constructor
      · rintro ⟨s, hs, hmem⟩
        have hsome : (posOfSymbol s).isSome = true := posOfSymbol_isSome_iff_mem.mpr hs
        obtain ⟨rc, hrc⟩ := Option.isSome_iff_exists.mp hsome
        rw [boundsStep, hrc, Option.map_some'] at hmem
        have hwf' : (mkSub b rc.1 rc.2).wf := mkSub_wf hwf rc.1 rc.2
        obtain ⟨suf, hcode, hlen, hv, b', hfold, hcont⟩ :=
          (ih (pre ++ [s]) (mkSub b rc.1 rc.2) hwf' code).mp hmem
        refine ⟨s :: suf, by simp [hcode], by simp [hlen], ?_, b', ?_, hcont⟩
        · intro ch hch
          rcases List.mem_cons.mp hch with rfl | h
          · exact hs
          · exact hv ch h
        · rw [boundsFold, boundsStep, hrc, Option.map_some']
          exact hfold
      · rintro ⟨suf, rfl, hlen, hv, b', hfold, hcont⟩
        cases suf with
        | nil => simp at hlen
        | cons s suf' =>
          have hs : s ∈ DIGIPIN_ALPHABET := hv s (by simp)
          have hsome : (posOfSymbol s).isSome = true := posOfSymbol_isSome_iff_mem.mpr hs
          obtain ⟨rc, hrc⟩ := Option.isSome_iff_exists.mp hsome
          rw [boundsFold, boundsStep, hrc, Option.map_some'] at hfold
          have hwf' : (mkSub b rc.1 rc.2).wf := mkSub_wf hwf rc.1 rc.2
          refine ⟨s, hs, ?_⟩
          rw [boundsStep, hrc, Option.map_some']
          refine (ih (pre ++ [s]) (mkSub b rc.1 rc.2) hwf' _).mpr
            ⟨suf', by simp, by simpa using hlen,
              fun ch hch => hv ch (by simp [hch]), b', hfold, hcont⟩

/-- Top-level membership in the quadtree polyfill, under oracle consistency:
exactly the valid precision-`p` codes whose cell center the polygon
contains (the spec's leaf-acceptance rule). -/
theorem polyfill_quadtree_mem (poly : PreparedPolygon) (p : ℕ)
    (hp : 1 ≤ p ∧ p ≤ 10)
    (Hout : ∀ b : Bounds, poly.intersectsRect b = false →
      ∀ lat lon, b.inB lat lon → poly.contains lon lat = false)
    (Hin : ∀ b : Bounds, poly.containsRect b = true →
      ∀ lat lon, b.strictInB lat lon → poly.contains lon lat = true)
    (code : List Char) (qr : List (List Char))
    (hqr : polyfill_quadtree poly p = .ok qr) :
    code ∈ qr ↔ code.length = p ∧ (∀ ch ∈ code, ch ∈ DIGIPIN_ALPHABET) ∧
      ∃ b, get_bounds code = some b ∧
        poly.contains ((b.lonMin + b.lonMax) / 2) ((b.latMin + b.latMax) / 2) = true := by
  rw [polyfill_quadtree, if_neg (not_not_intro hp)] at hqr
  obtain rfl : _ = qr := Except.ok.inj hqr
  rw [List.mem_flatMap]
  constructor
  · rintro ⟨s, hs, hmem⟩
    have hsome : (posOfSymbol s).isSome = true := posOfSymbol_isSome_iff_mem.mpr hs
    obtain ⟨rc, hrc⟩ := Option.isSome_iff_exists.mp hsome
    rw [boundsStep, hrc, Option.map_some'] at hmem
    have hwf1 : (mkSub regionBounds rc.1 rc.2).wf := mkSub_wf regionBounds_wf rc.1 rc.2
    obtain ⟨suf, rfl, hlen, hv, b', hfold, hcont⟩ :=
      (quadRec_mem poly Hout Hin (p - 1) [s] (mkSub regionBounds rc.1 rc.2) hwf1 code).mp hmem
    have hvall : ∀ ch ∈ s :: suf, ch ∈ DIGIPIN_ALPHABET := by
      intro ch hch
      rcases List.mem_cons.mp hch with rfl | h
      · exact hs
      · exact hv ch h
    refine ⟨by simp [hlen]; omega, by simpa using hvall, b', ?_, hcont⟩
    rw [show ([s] ++ suf : List Char) = s :: suf from rfl]
    rw [get_bounds, map_pyUpper_fixed hvall, boundsFold, boundsStep, hrc, Option.map_some']
    exact hfold
  · rintro ⟨hlen, hv, b', hgb, hcont⟩
    cases code with
    | nil => simp at hlen; omega
    | cons s suf =>
      have hs : s ∈ DIGIPIN_ALPHABET := hv s (by simp)
      have hsome : (posOfSymbol s).isSome = true := posOfSymbol_isSome_iff_mem.mpr hs
      obtain ⟨rc, hrc⟩ := Option.isSome_iff_exists.mp hsome
      rw [get_bounds, map_pyUpper_fixed hv, boundsFold, boundsStep, hrc,
        Option.map_some'] at hgb
      have hwf1 : (mkSub regionBounds rc.1 rc.2).wf := mkSub_wf regionBounds_wf rc.1 rc.2
      refine ⟨s, hs, ?_⟩
      rw [boundsStep, hrc, Option.map_some']
      refine (quadRec_mem poly Hout Hin (p - 1) [s] (mkSub regionBounds rc.1 rc.2)
        hwf1 _).mpr ⟨suf, by simp, ?_, fun ch hch => hv ch (by simp [hch]), b', hgb, hcont⟩
      simp at hlen
      omega

/-- Every valid code of length `L` identifies an exact grid cell: its
rectangle is the `(R, C)`-th cell of the `4^L` by `4^L` grid over the Region
(`R` rows from the south, `C` columns from the west). -/
theorem boundsFold_structure (code : List Char)
    (hv : ∀ ch ∈ code, ch ∈ DIGIPIN_ALPHABET) :
    ∃ R C : ℕ, R < 4 ^ code.length ∧ C < 4 ^ code.length ∧
      boundsFold regionBounds code = some
        ⟨LAT_MIN + (R : ℚ) * (LAT_SPAN / 4 ^ code.length),
         LAT_MIN + ((R : ℚ) + 1) * (LAT_SPAN / 4 ^ code.length),
         LON_MIN + (C : ℚ) * (LON_SPAN / 4 ^ code.length),
         LON_MIN + ((C : ℚ) + 1) * (LON_SPAN / 4 ^ code.length)⟩ := by
  induction code using List.reverseRecOn with
  | nil =>
    refine ⟨0, 0, by norm_num, by norm_num, ?_⟩
    simp only [boundsFold, Option.some_inj]
    rw [regionBounds]
    congr 1 <;> push_cast <;>
      norm_num [LAT_SPAN, LON_SPAN, LAT_MIN, LAT_MAX, LON_MIN, LON_MAX]
  | append_singleton pre d ih =>
    have hvpre : ∀ ch ∈ pre, ch ∈ DIGIPIN_ALPHABET :=
      fun ch hch => hv ch (by simp [hch])
    have hd : d ∈ DIGIPIN_ALPHABET := hv d (by simp)
    obtain ⟨R, C, hR, hC, hfold⟩ := ih hvpre
    obtain ⟨rc, hrc⟩ := Option.isSome_iff_exists.mp (posOfSymbol_isSome_iff_mem.mpr hd)
    obtain ⟨hr3, hc3⟩ := posOfSymbol_le3 hrc
    have hL : (pre ++ [d]).length = pre.length + 1 := by simp
    have h4 : (4 : ℕ) ^ (pre.length + 1) = 4 * 4 ^ pre.length := by ring
    refine ⟨4 * R + 3 - rc.1, 4 * C + rc.2, by rw [hL, h4]; omega,
      by rw [hL, h4]; omega, ?_⟩
    rw [boundsFold_append, hfold]
    simp only [boundsFold, boundsStep, hrc, Option.map_some']
    rw [hL]
    have hpow : (4 : ℚ) ^ (pre.length + 1) = 4 ^ pre.length * 4 := by ring
    have hcast : ((4 * R + 3 - rc.1 : ℕ) : ℚ) = 4 * (R : ℚ) + 3 - (rc.1 : ℚ) := by
      have : rc.1 ≤ 4 * R + 3 := by omega
      push_cast [Nat.cast_sub this]
      ring
    congr 1
    rw [mkSub]
    have hne : (4 : ℚ) ^ pre.length ≠ 0 := by positivity
    congr 1 <;> rw [hpow] <;> push_cast [hcast] <;> field_simp <;> ring

/-- If a point of the form `m*s + s/2` (cell `m`'s center offset) lies in the
closed band `[R*s, (R+1)*s]`, the bands coincide: `R = m`. -/
theorem cell_index_eq {s : ℚ} (hs : 0 < s) {R m : ℕ}
    (h1 : (R : ℚ) * s ≤ (m : ℚ) * s + s / 2)
    (h2 : (m : ℚ) * s + s / 2 ≤ ((R : ℚ) + 1) * s) : R = m := by
  have hRm : (R : ℚ) ≤ (m : ℚ) + 1 / 2 := by
    have h1' : (R : ℚ) * s ≤ ((m : ℚ) + 1 / 2) * s := by ring_nf; ring_nf at h1; linarith
    have := (mul_le_mul_right hs).mp h1'
    linarith
  have hmR : (m : ℚ) ≤ (R : ℚ) + 1 / 2 := by
    have h2' : ((m : ℚ) + 1 / 2) * s ≤ ((R : ℚ) + 1) * s := by ring_nf; ring_nf at h2; linarith
    have := (mul_le_mul_right hs).mp h2'
    linarith
  have hle1 : R ≤ m := by
    by_contra hc
    push_neg at hc
    have : (m : ℚ) + 1 ≤ (R : ℚ) := by exact_mod_cast hc
    linarith
  have hle2 : m ≤ R := by
    by_contra hc
    push_neg at hc
    have : (R : ℚ) + 1 ≤ (m : ℚ) := by exact_mod_cast hc
    linarith
  omega

theorem latStep_pos (p : ℕ) : (0 : ℚ) < LAT_SPAN / 4 ^ p := by
  have h : LAT_SPAN = 36 := by norm_num [LAT_SPAN, LAT_MIN, LAT_MAX]
  rw [h]
  positivity

theorem lonStep_pos (p : ℕ) : (0 : ℚ) < LON_SPAN / 4 ^ p := by
  have h : LON_SPAN = 36 := by norm_num [LON_SPAN, LON_MIN, LON_MAX]
  rw [h]
  positivity

set_option maxHeartbeats 1600000 in
/-- C2 (amended): the quadtree polyfill and the grid-scan polyfill agree as
sets for polygons whose bounding box is aligned to the precision-`p` grid
(all four bounding-box edges on grid lines inside the Region), provided the
polygon's oracles are consistent (`Hout`/`Hin`) and the polygon lies inside
its bounding box.  On such inputs the grid scan's sample points are exactly
the centers of the cells in the box, so both algorithms compute the spec's
center-containment rule.  For general (non-aligned) simple polygons the
set equality fails: see `C2_counterexample`. -/
theorem C2_polyfill_equivalence_aligned (poly : PreparedPolygon) (p : ℕ)
    (hp : 1 ≤ p ∧ p ≤ 10) (a A cc CC : ℕ)
    (ha : poly.minLat = LAT_MIN + (a : ℚ) * (LAT_SPAN / 4 ^ p))
    (hA : poly.maxLat = LAT_MIN + (A : ℚ) * (LAT_SPAN / 4 ^ p))
    (hc : poly.minLon = LON_MIN + (cc : ℚ) * (LON_SPAN / 4 ^ p))
    (hC : poly.maxLon = LON_MIN + (CC : ℚ) * (LON_SPAN / 4 ^ p))
    (hA4 : A ≤ 4 ^ p) (hC4 : CC ≤ 4 ^ p)
    (hbbox : ∀ lon lat, poly.contains lon lat = true →
      poly.minLon ≤ lon ∧ lon ≤ poly.maxLon ∧ poly.minLat ≤ lat ∧ lat ≤ poly.maxLat)
    (Hout : ∀ b : Bounds, poly.intersectsRect b = false →
      ∀ lat lon, b.inB lat lon → poly.contains lon lat = false)
    (Hin : ∀ b : Bounds, poly.containsRect b = true →
      ∀ lat lon, b.strictInB lat lon → poly.contains lon lat = true)
    (gr qr : List (List Char))
    (hgr : polyfill_grid poly p = .ok gr)
    (hqr : polyfill_quadtree poly p = .ok qr)
    (code : List Char) :
    code ∈ gr ↔ code ∈ qr := by
  have hs : (0 : ℚ) < LAT_SPAN / 4 ^ p := latStep_pos p
  have ht : (0 : ℚ) < LON_SPAN / 4 ^ p := lonStep_pos p
  have hg1 : (get_grid_size p).1 = LAT_SPAN / 4 ^ p := rfl
  have hg2 : (get_grid_size p).2 = LON_SPAN / 4 ^ p := rfl
  have hspan : (4 : ℚ) ^ p * (LAT_SPAN / 4 ^ p) = LAT_SPAN := by
    field_simp
  have hspanl : (4 : ℚ) ^ p * (LON_SPAN / 4 ^ p) = LON_SPAN := by
    field_simp
  rw [polyfill_grid_mem poly p hp code gr hgr,
    polyfill_quadtree_mem poly p hp Hout Hin code qr hqr]
  constructor
  · rintro ⟨k, j, hk, hj, hcont, henc⟩
    rw [encode] at henc
    split_ifs at henc with hr1 hr2
    have hcode : encodeLoop (scanPt poly.minLat (get_grid_size p).1 k)
        (scanPt poly.minLon (get_grid_size p).2 j) p regionBounds = code :=
      Except.ok.inj henc
    subst hcode
    have hv := encodeLoop_mem_alphabet (scanPt poly.minLat (get_grid_size p).1 k)
      (scanPt poly.minLon (get_grid_size p).2 j) p regionBounds
    have hlen := encodeLoop_length (scanPt poly.minLat (get_grid_size p).1 k)
      (scanPt poly.minLon (get_grid_size p).2 j) p regionBounds
    have hrB : regionBounds.inB (scanPt poly.minLat (get_grid_size p).1 k)
        (scanPt poly.minLon (get_grid_size p).2 j) := hr1
    obtain ⟨b, hfold, hbin⟩ := encodeLoop_boundsFold regionBounds_wf hrB p
    obtain ⟨R, C, hR, hC', hfold'⟩ := boundsFold_structure _ hv
    rw [hlen] at hfold'
    have hbeq : b = ⟨LAT_MIN + (R : ℚ) * (LAT_SPAN / 4 ^ p),
        LAT_MIN + ((R : ℚ) + 1) * (LAT_SPAN / 4 ^ p),
        LON_MIN + (C : ℚ) * (LON_SPAN / 4 ^ p),
        LON_MIN + ((C : ℚ) + 1) * (LON_SPAN / 4 ^ p)⟩ := by
      rw [hfold] at hfold'
      exact Option.some_inj.mp hfold'
    subst hbeq
    obtain ⟨hb1, hb2, hb3, hb4⟩ := hbin
    dsimp only at hb1 hb2 hb3 hb4
    have hRak : R = a + k := by
      refine cell_index_eq hs ?_ ?_
      · rw [scanPt, hg1, ha] at hb1
        push_cast at hb1 ⊢
        linarith
      · rw [scanPt, hg1, ha] at hb2
        push_cast at hb2 ⊢
        linarith
    have hCcj : C = cc + j := by
      refine cell_index_eq ht ?_ ?_
      · rw [scanPt, hg2, hc] at hb3
        push_cast at hb3 ⊢
        linarith
      · rw [scanPt, hg2, hc] at hb4
        push_cast at hb4 ⊢
        linarith
    refine ⟨hlen, hv, ⟨LAT_MIN + (R : ℚ) * (LAT_SPAN / 4 ^ p),
      LAT_MIN + ((R : ℚ) + 1) * (LAT_SPAN / 4 ^ p),
      LON_MIN + (C : ℚ) * (LON_SPAN / 4 ^ p),
      LON_MIN + ((C : ℚ) + 1) * (LON_SPAN / 4 ^ p)⟩, ?_, ?_⟩
    · rw [get_bounds, map_pyUpper_fixed hv, hfold]
    · dsimp only
      have hclat : ((LAT_MIN + (R : ℚ) * (LAT_SPAN / 4 ^ p)) +
          (LAT_MIN + ((R : ℚ) + 1) * (LAT_SPAN / 4 ^ p))) / 2 =
          scanPt poly.minLat (get_grid_size p).1 k := by
        rw [scanPt, hg1, ha, hRak]
        push_cast
        ring
      have hclon : ((LON_MIN + (C : ℚ) * (LON_SPAN / 4 ^ p)) +
          (LON_MIN + ((C : ℚ) + 1) * (LON_SPAN / 4 ^ p))) / 2 =
          scanPt poly.minLon (get_grid_size p).2 j := by
        rw [scanPt, hg2, hc, hCcj]
        push_cast
        ring
      rw [hclat, hclon]
      exact hcont
  · rintro ⟨hlen, hv, b, hgb, hcont⟩
    obtain ⟨R, C, hR, hC', hfold'⟩ := boundsFold_structure code hv
    rw [hlen] at hR hC' hfold'
    have hbeq : b = ⟨LAT_MIN + (R : ℚ) * (LAT_SPAN / 4 ^ p),
        LAT_MIN + ((R : ℚ) + 1) * (LAT_SPAN / 4 ^ p),
        LON_MIN + (C : ℚ) * (LON_SPAN / 4 ^ p),
        LON_MIN + ((C : ℚ) + 1) * (LON_SPAN / 4 ^ p)⟩ := by
      rw [get_bounds, map_pyUpper_fixed hv, hfold'] at hgb
      exact (Option.some_inj.mp hgb).symm
    subst hbeq
    dsimp only at hcont
    have hcentlat : ((LAT_MIN + (R : ℚ) * (LAT_SPAN / 4 ^ p)) +
        (LAT_MIN + ((R : ℚ) + 1) * (LAT_SPAN / 4 ^ p))) / 2 =
        LAT_MIN + (R : ℚ) * (LAT_SPAN / 4 ^ p) + (LAT_SPAN / 4 ^ p) / 2 := by ring
    have hcentlon : ((LON_MIN + (C : ℚ) * (LON_SPAN / 4 ^ p)) +
        (LON_MIN + ((C : ℚ) + 1) * (LON_SPAN / 4 ^ p))) / 2 =
        LON_MIN + (C : ℚ) * (LON_SPAN / 4 ^ p) + (LON_SPAN / 4 ^ p) / 2 := by ring
    obtain ⟨hx1, hx2, hx3, hx4⟩ := hbbox _ _ hcont
    have haR : a ≤ R := by
      by_contra hcn
      push_neg at hcn
      have hcast : (R : ℚ) + 1 ≤ (a : ℚ) := by exact_mod_cast hcn
      rw [ha, hcentlat] at hx3
      nlinarith
    have hRA : R < A := by
      by_contra hcn
      push_neg at hcn
      have hcast : (A : ℚ) ≤ (R : ℚ) := by exact_mod_cast hcn
      rw [hA, hcentlat] at hx4
      nlinarith
    have hcC : cc ≤ C := by
      by_contra hcn
      push_neg at hcn
      have hcast : (C : ℚ) + 1 ≤ (cc : ℚ) := by exact_mod_cast hcn
      rw [hc, hcentlon] at hx1
      nlinarith
    have hCCb : C < CC := by
      by_contra hcn
      push_neg at hcn
      have hcast : (CC : ℚ) ≤ (C : ℚ) := by exact_mod_cast hcn
      rw [hC, hcentlon] at hx2
      nlinarith
    have hcastR : ((R - a : ℕ) : ℚ) = (R : ℚ) - (a : ℚ) := by
      push_cast [Nat.cast_sub haR]
      ring
    have hcastC : ((C - cc : ℕ) : ℚ) = (C : ℚ) - (cc : ℚ) := by
      push_cast [Nat.cast_sub hcC]
      ring
    have hptlat : scanPt poly.minLat (get_grid_size p).1 (R - a) =
        LAT_MIN + (R : ℚ) * (LAT_SPAN / 4 ^ p) + (LAT_SPAN / 4 ^ p) / 2 := by
      rw [scanPt, hg1, ha, hcastR]
      ring
    have hptlon : scanPt poly.minLon (get_grid_size p).2 (C - cc) =
        LON_MIN + (C : ℚ) * (LON_SPAN / 4 ^ p) + (LON_SPAN / 4 ^ p) / 2 := by
      rw [scanPt, hg2, hc, hcastC]
      ring
    refine ⟨R - a, C - cc, ?_, ?_, ?_, ?_⟩
    · refine (lt_scanCount_iff ?_ (R - a)).mpr ?_
      · rw [hg1]
        exact hs
      · rw [hptlat, hA]
        have hAc : (R : ℚ) + 1 ≤ (A : ℚ) := by exact_mod_cast hRA
        nlinarith
    · refine (lt_scanCount_iff ?_ (C - cc)).mpr ?_
      · rw [hg2]
        exact ht
      · rw [hptlon, hC]
        have hCc : (C : ℚ) + 1 ≤ (CC : ℚ) := by exact_mod_cast hCCb
        nlinarith
    · rw [hptlat, hptlon, ← hcentlat, ← hcentlon]
      exact hcont
    · have hR4 : (R : ℚ) + 1 ≤ (4 : ℚ) ^ p := by
        have h' : ((R + 1 : ℕ) : ℚ) ≤ ((4 ^ p : ℕ) : ℚ) := by exact_mod_cast hR
        push_cast at h'
        exact h'
      have hC4q : (C : ℚ) + 1 ≤ (4 : ℚ) ^ p := by
        have h' : ((C + 1 : ℕ) : ℚ) ≤ ((4 ^ p : ℕ) : ℚ) := by exact_mod_cast hC'
        push_cast at h'
        exact h'
      have hreg : inRegion (scanPt poly.minLat (get_grid_size p).1 (R - a))
          (scanPt poly.minLon (get_grid_size p).2 (C - cc)) := by
        rw [hptlat, hptlon]
        have hmax1 : LAT_MIN + (4 : ℚ) ^ p * (LAT_SPAN / 4 ^ p) = LAT_MAX := by
          rw [hspan, LAT_SPAN]
          ring
        have hmax2 : LON_MIN + (4 : ℚ) ^ p * (LON_SPAN / 4 ^ p) = LON_MAX := by
          rw [hspanl, LON_SPAN]
          ring
        have hRq : (0 : ℚ) ≤ (R : ℚ) := Nat.cast_nonneg R
        have hCq : (0 : ℚ) ≤ (C : ℚ) := Nat.cast_nonneg C
        refine ⟨?_, ?_, ?_, ?_⟩
        · linarith [mul_nonneg hRq hs.le]
        · rw [← hmax1]
          linarith [mul_le_mul_of_nonneg_right hR4 hs.le]
        · linarith [mul_nonneg hCq ht.le]
        · rw [← hmax2]
          linarith [mul_le_mul_of_nonneg_right hC4q ht.le]
      rw [encode, if_neg (not_not_intro hreg), if_neg (not_not_intro hp)]
      congr 1
      have hstrict : (⟨LAT_MIN + (R : ℚ) * (LAT_SPAN / 4 ^ p),
          LAT_MIN + ((R : ℚ) + 1) * (LAT_SPAN / 4 ^ p),
          LON_MIN + (C : ℚ) * (LON_SPAN / 4 ^ p),
          LON_MIN + ((C : ℚ) + 1) * (LON_SPAN / 4 ^ p)⟩ : Bounds).strictInB
          (scanPt poly.minLat (get_grid_size p).1 (R - a))
          (scanPt poly.minLon (get_grid_size p).2 (C - cc)) := by
      -- each strict bound: the center sits half a step inside the cell
        refine ⟨?_, ?_, ?_, ?_⟩ <;> dsimp only
        · rw [hptlat]
          linarith
        · rw [hptlat]
          nlinarith
        · rw [hptlon]
          linarith
        · rw [hptlon]
          nlinarith
      have hrun := encodeLoop_of_strict hv regionBounds_wf hfold' hstrict
      rw [hlen] at hrun
      exact hrun

/-- A prepared rectangle polygon never contains a point of a rectangle it is
disjoint from: the outside-cell oracle of `rectPoly` is consistent with its
point-containment oracle. -/
theorem rectPoly_Hout (lat1 lat2 lon1 lon2 : ℚ) :
    ∀ b : Bounds, (rectPoly lat1 lat2 lon1 lon2).intersectsRect b = false →
      ∀ lat lon : ℚ, b.inB lat lon →
      (rectPoly lat1 lat2 lon1 lon2).contains lon lat = false := by
  intro b hb lat lon hin
  obtain ⟨h1, h2, h3, h4⟩ := hin
  simp only [rectPoly, decide_eq_false_iff_not] at hb
  simp only [rectPoly, decide_eq_false_iff_not]
  rintro ⟨ha1, ha2, ha3, ha4⟩
  exact hb ⟨by linarith, by linarith, by linarith, by linarith⟩

/-- A prepared rectangle polygon contains every interior point of a rectangle
it fully covers: the inside-cell oracle of `rectPoly` is consistent with its
point-containment oracle. -/
theorem rectPoly_Hin (lat1 lat2 lon1 lon2 : ℚ) :
    ∀ b : Bounds, (rectPoly lat1 lat2 lon1 lon2).containsRect b = true →
      ∀ lat lon : ℚ, b.strictInB lat lon →
      (rectPoly lat1 lat2 lon1 lon2).contains lon lat = true := by
  intro b hb lat lon hin
  obtain ⟨h1, h2, h3, h4⟩ := hin
  simp only [rectPoly, decide_eq_true_eq] at hb
  obtain ⟨hb1, hb2, hb3, hb4⟩ := hb
  simp only [rectPoly, decide_eq_true_eq]
  exact ⟨by linarith, by linarith, by linarith, by linarith⟩

/-- Every point a prepared rectangle polygon contains lies inside its
bounding box. -/
theorem rectPoly_bbox (lat1 lat2 lon1 lon2 : ℚ) :
    ∀ lon lat : ℚ, (rectPoly lat1 lat2 lon1 lon2).contains lon lat = true →
      (rectPoly lat1 lat2 lon1 lon2).minLon ≤ lon ∧
      lon ≤ (rectPoly lat1 lat2 lon1 lon2).maxLon ∧
      (rectPoly lat1 lat2 lon1 lon2).minLat ≤ lat ∧
      lat ≤ (rectPoly lat1 lat2 lon1 lon2).maxLat := by
  intro lon lat h
  simp only [rectPoly, decide_eq_true_eq] at h
  obtain ⟨h1, h2, h3, h4⟩ := h
  exact ⟨le_of_lt h1, le_of_lt h2, le_of_lt h3, le_of_lt h4⟩

set_option maxHeartbeats 1600000 in
/-- C2 counterexample: on the non-aligned rectangle
`24.9 ≤ lat ≤ 25.1`, `85.9 ≤ lon ≤ 86.1` at precision 1, the quadtree
polyfill returns `["2"]` (the rectangle intersects cell `"2"` and strictly
contains its center `(25, 86)`), but the grid scan returns the empty list
(its first sample point `24.9 + 4.5 = 29.4` already leaves the bounding
box), so the two algorithms do not agree as sets on this simple polygon. -/
theorem C2_counterexample :
    polyfill_quadtree (rectPoly (249/10) (251/10) (859/10) (861/10)) 1 = .ok [['2']] ∧
    polyfill_grid (rectPoly (249/10) (251/10) (859/10) (861/10)) 1 = .ok [] ∧
    ['2'] ∈ [(['2'] : List Char)] ∧ ['2'] ∉ ([] : List (List Char)) := by
  refine ⟨?_, ?_, by simp, by simp⟩
  · rw [polyfill_quadtree, if_neg (by norm_num)]
    simp only [DIGIPIN_ALPHABET, List.flatMap_cons, List.flatMap_nil]
    norm_num [boundsStep, posOfSymbol, mkSub, regionBounds, LAT_MIN, LAT_MAX, LON_MIN, LON_MAX]
    simp only [quadRec]
    norm_num [classifyCell, rectPoly, expandFully]
  · have h0 : scanCount (249/10) (251/10) (get_grid_size 1).1 = 0 := by
      norm_num [scanCount, get_grid_size, LAT_SPAN, LAT_MIN, LAT_MAX]
      rw [Int.ceil_le]
      norm_num
    rw [polyfill_grid, if_neg (by norm_num)]
    rw [show (rectPoly (249/10) (251/10) (859/10) (861/10)).minLat = 249/10 from rfl,
      show (rectPoly (249/10) (251/10) (859/10) (861/10)).maxLat = 251/10 from rfl]
    simp [scanPts, h0]

set_option maxHeartbeats 1600000 in
/-- Witness for C2's amended alignment equivalence: the rectangle
`20.5..29.5 × 81.5..90.5` is exactly the precision-1 cell `"2"`, so its
bounding box is grid-aligned with row indices `2..3` and column indices
`2..3`; both polyfills return `["2"]` and the equivalence theorem applies
with every hypothesis discharged concretely. -/
theorem C2_witness :
    polyfill_grid (rectPoly (41/2) (59/2) (163/2) (181/2)) 1 = .ok [['2']] ∧
    polyfill_quadtree (rectPoly (41/2) (59/2) (163/2) (181/2)) 1 = .ok [['2']] ∧
    (['2'] ∈ [(['2'] : List Char)] ↔ ['2'] ∈ [(['2'] : List Char)]) := by
  have hceil : ⌈(1 : ℚ)/2⌉ = (1 : ℤ) := by
    rw [Int.ceil_eq_iff] <;> norm_num
  have hlat : scanCount (41/2) (59/2) (get_grid_size 1).1 = 1 := by
    norm_num [scanCount, get_grid_size, LAT_SPAN, LAT_MIN, LAT_MAX]
    rw [hceil]
    decide
  have hlon : scanCount (163/2) (181/2) (get_grid_size 1).2 = 1 := by
    norm_num [scanCount, get_grid_size, LON_SPAN, LON_MIN, LON_MAX]
    rw [hceil]
    decide
  have henc : encode (scanPt (41/2) (get_grid_size 1).1 0)
      (scanPt (163/2) (get_grid_size 1).2 0) 1 = .ok ['2'] := by
    rw [encode, if_neg (by norm_num [inRegion, scanPt, get_grid_size, LAT_SPAN, LON_SPAN,
      LAT_MIN, LAT_MAX, LON_MIN, LON_MAX]), if_neg (by norm_num)]
    norm_num [encodeLoop, axisIdx, mkSub, gridChar, regionBounds, scanPt, get_grid_size,
      LAT_SPAN, LON_SPAN, LAT_MIN, LAT_MAX, LON_MIN, LON_MAX]
  have hgr : polyfill_grid (rectPoly (41/2) (59/2) (163/2) (181/2)) 1 = .ok [['2']] := by
    rw [polyfill_grid, if_neg (by norm_num)]
    rw [show (rectPoly (41/2) (59/2) (163/2) (181/2)).minLat = 41/2 from rfl,
      show (rectPoly (41/2) (59/2) (163/2) (181/2)).maxLat = 59/2 from rfl,
      show (rectPoly (41/2) (59/2) (163/2) (181/2)).minLon = 163/2 from rfl,
      show (rectPoly (41/2) (59/2) (163/2) (181/2)).maxLon = 181/2 from rfl]
    rw [scanPts, scanPts, hlat, hlon, show List.range 1 = [0] from by decide]
    simp only [List.map_cons, List.map_nil, List.flatMap_cons,
      List.flatMap_nil, List.filterMap_cons, List.filterMap_nil]
    rw [if_pos (by rw [rectPoly]; norm_num [scanPt, get_grid_size, LAT_SPAN, LON_SPAN,
      LAT_MIN, LAT_MAX, LON_MIN, LON_MAX] : (rectPoly (41/2) (59/2) (163/2) (181/2)).contains
        (scanPt (163/2) (get_grid_size 1).2 0) (scanPt (41/2) (get_grid_size 1).1 0) = true)]
    rw [henc]
    rfl
  have hqr : polyfill_quadtree (rectPoly (41/2) (59/2) (163/2) (181/2)) 1 = .ok [['2']] := by
    rw [polyfill_quadtree, if_neg (by norm_num)]
    simp only [DIGIPIN_ALPHABET, List.flatMap_cons, List.flatMap_nil]
    norm_num [boundsStep, posOfSymbol, mkSub, regionBounds, LAT_MIN, LAT_MAX, LON_MIN, LON_MAX]
    simp only [quadRec]
    norm_num [classifyCell, rectPoly, expandFully]
  refine ⟨hgr, hqr, ?_⟩
  refine C2_polyfill_equivalence_aligned (rectPoly (41/2) (59/2) (163/2) (181/2)) 1
    (by norm_num) 2 3 2 3 ?_ ?_ ?_ ?_ (by norm_num) (by norm_num)
    (rectPoly_bbox (41/2) (59/2) (163/2) (181/2))
    (rectPoly_Hout (41/2) (59/2) (163/2) (181/2))
    (rectPoly_Hin (41/2) (59/2) (163/2) (181/2))
    [['2']] [['2']] hgr hqr ['2']
  · show (41 : ℚ)/2 = LAT_MIN + ((2 : ℕ) : ℚ) * (LAT_SPAN / 4 ^ 1)
    norm_num [LAT_MIN, LAT_SPAN, LAT_MAX]
  · show (59 : ℚ)/2 = LAT_MIN + ((3 : ℕ) : ℚ) * (LAT_SPAN / 4 ^ 1)
    norm_num [LAT_MIN, LAT_SPAN, LAT_MAX]
  · show (163 : ℚ)/2 = LON_MIN + ((2 : ℕ) : ℚ) * (LON_SPAN / 4 ^ 1)
    norm_num [LON_MIN, LON_SPAN, LON_MAX]
  · show (181 : ℚ)/2 = LON_MIN + ((3 : ℕ) : ℚ) * (LON_SPAN / 4 ^ 1)
    norm_num [LON_MIN, LON_SPAN, LON_MAX]

end Digipin
